import Mathlib

/-!
Shallow embedding of the micro-kernel plugin system (`src/kernel.ts`) and its
event bus (`src/utils/eventBus.ts`).

Modelling conventions:
* JavaScript `Map`s are insertion-ordered association lists (`alGet`, `alSet`,
  `alDelete` mirror `get`/`set`/`delete`); `Set`s of handlers are
  insertion-ordered duplicate-free lists (`setAdd`, handler deletion is
  `filter`).
* A handler is identified by a numeric id together with a flag saying whether
  invoking it throws; plugin lifecycle hooks are modelled by their presence
  and outcome (`none` = hook absent, `some none` = present and succeeds,
  `some (some e)` = present and throws error `e`).
* Every operation returns the new state, a trace of observable events (hook
  invocations, handler invocations, console logs), and an optional error;
  `none` means the operation returned normally, `some e` that it threw or
  rejected with `e`.
* `async` execution in the source is single-threaded and cooperative, so the
  sequential functions below follow the source statement by statement; the
  synchronous prefix of `init()` (which implements the single-flight guard)
  is additionally modelled on its own as `initSync` to reason about
  concurrent callers.
-/

/-- Association-list lookup, mirroring JavaScript `Map.get`. -/
def alGet {β : Type} : List (String × β) → String → Option β
  | [], _ => none
  | (k, v) :: rest, key => if k = key then some v else alGet rest key

/-- Association-list membership, mirroring JavaScript `Map.has`. -/
def alHas {β : Type} (l : List (String × β)) (key : String) : Bool :=
  (alGet l key).isSome

/-- Association-list update, mirroring JavaScript `Map.set`: replaces the
value in place if the key exists, otherwise appends at the end (insertion
order). -/
def alSet {β : Type} : List (String × β) → String → β → List (String × β)
  | [], key, v => [(key, v)]
  | (k, w) :: rest, key, v =>
    if k = key then (key, v) :: rest else (k, w) :: alSet rest key v

/-- Association-list removal, mirroring JavaScript `Map.delete`: removes the
first binding of the key, keeping the order of the rest. -/
def alDelete {β : Type} : List (String × β) → String → List (String × β)
  | [], _ => []
  | (k, w) :: rest, key =>
    if k = key then rest else (k, w) :: alDelete rest key

/-- `Set.add`: appends the element unless it is already present. -/
def setAdd {α : Type} [DecidableEq α] (s : List α) (a : α) : List α :=
  if a ∈ s then s else s ++ [a]

/-- An event handler: identified by `hid`; `hthrows` says whether calling it
throws (the thrown error is caught and logged by `emit`). -/
structure Handler where
  hid : Nat
  hthrows : Bool
deriving DecidableEq, Repr

/-- Observable events produced while running kernel / event-bus operations. -/
inductive TraceEv where
  /-- a handler was invoked by `emit` for the given event name -/
  | handlerCall (event : String) (hid : Nat)
  /-- `console.error` inside `emit` after a handler threw -/
  | handlerLog (event : String) (hid : Nat)
  /-- a plugin's `install` hook was invoked -/
  | installCall (name : String)
  /-- a plugin's `onInit` hook was invoked -/
  | onInitCall (name : String)
  /-- a plugin's `onDestroy` hook was invoked -/
  | onDestroyCall (name : String)
  /-- a plugin's `onError` hook was invoked -/
  | onErrorCall (name : String)
  /-- `console.error` in `doInit` when a rollback destroy failed -/
  | rollbackLog (name : String)
  /-- `console.error` in `destroy` when a plugin's destroy failed -/
  | destroyLog (name : String)
deriving DecidableEq, Repr

/-- The error taxonomy of `src/errors.ts` restricted to what the kernel can
throw, plus `hookError` for errors thrown by user-supplied hooks and
`outOfFuel` as the (unreachable for sufficient fuel) fuel-exhaustion marker
of the depth-bounded DFS. -/
inductive KError where
  | pluginAlreadyRegistered (name : String)
  | pluginNotFound (name : String)
  | pluginDependencyMissing (plugin dep : String)
  | circularDependency (cycle : List String)
  | pluginInitialization (name : String) (cause : KError)
  /-- the generic `Error` thrown by `unregister` naming both plugins -/
  | cannotUnregister (name dependent : String)
  /-- the generic `Error` thrown by `init()` on a destroyed kernel -/
  | destroyedKernel
  /-- an error thrown by a user-supplied hook, identified by a number -/
  | hookError (errId : Nat)
  | outOfFuel
deriving DecidableEq, Repr

/-- The event bus of `src/utils/eventBus.ts`: `listeners` maps an event name
to its ordered set of handlers, `scopedHandlers` maps a scope to a map from
event name to the handlers registered under that scope. -/
structure EventBus where
  listeners : List (String × List Handler)
  scopedHandlers : List (String × List (String × List Handler))
deriving DecidableEq, Repr

/-- `EventBus.on`. -/
def EventBus.on (b : EventBus) (event : String) (h : Handler) : EventBus :=
  match alGet b.listeners event with
  | none => { b with listeners := alSet b.listeners event [h] }
  | some s => { b with listeners := alSet b.listeners event (setAdd s h) }

/-- `EventBus.off`: removes the handler; deletes the event entry when its
handler set becomes empty. -/
def EventBus.off (b : EventBus) (event : String) (h : Handler) : EventBus :=
  match alGet b.listeners event with
  | none => b
  | some s =>
    let s' := s.filter (fun x => x ≠ h)
    if s'.isEmpty then { b with listeners := alDelete b.listeners event }
    else { b with listeners := alSet b.listeners event s' }

/-- The handlers `emit` walks over for an event (the empty list when the
event has no entry). -/
def EventBus.handlersFor (b : EventBus) (event : String) : List Handler :=
  (alGet b.listeners event).getD []

/-- `EventBus.emit`: invokes every handler registered for the event in
order; a handler that throws is caught and logged and does not stop the
others. `emit` itself never throws and does not change the bus, so it is a
pure function returning only the trace. -/
def EventBus.emit (b : EventBus) (event : String) : List TraceEv :=
  (b.handlersFor event).flatMap fun h =>
    TraceEv.handlerCall event h.hid ::
      (if h.hthrows then [TraceEv.handlerLog event h.hid] else [])

/-- `EventBus.removeAllListeners`: clears one event's listeners, or all of
them when no event is given. -/
def EventBus.removeAllListeners (b : EventBus) (event : Option String) : EventBus :=
  match event with
  | some e => { b with listeners := alDelete b.listeners e }
  | none => { b with listeners := [] }

/-- `EventBus.listenerCount`. -/
def EventBus.listenerCount (b : EventBus) (event : String) : Nat :=
  ((alGet b.listeners event).map List.length).getD 0

/-- `EventBus.onScoped`: registers the handler normally and additionally
records it under the scope. -/
def EventBus.onScoped (b : EventBus) (scope event : String) (h : Handler) : EventBus :=
  let b1 := b.on event h
  let scopeMap := (alGet b1.scopedHandlers scope).getD []
  let handlers := (alGet scopeMap event).getD []
  { b1 with
    scopedHandlers :=
      alSet b1.scopedHandlers scope (alSet scopeMap event (setAdd handlers h)) }

/-- The handlers recorded under a scope for an event. -/
def EventBus.scopedFor (b : EventBus) (scope event : String) : List Handler :=
  (alGet ((alGet b.scopedHandlers scope).getD []) event).getD []

/-- `EventBus.removeScope`: calls `off` for every handler recorded under the
scope, then drops the scope entry. -/
def EventBus.removeScope (b : EventBus) (scope : String) : EventBus :=
  match alGet b.scopedHandlers scope with
  | none => b
  | some scopeMap =>
    let b1 := scopeMap.foldl
      (fun acc pr => pr.2.foldl (fun acc2 h => acc2.off pr.1 h) acc) b
    { b1 with scopedHandlers := alDelete b1.scopedHandlers scope }

/-- `EventBus.hasScope`. -/
def EventBus.hasScope (b : EventBus) (scope : String) : Bool :=
  alHas b.scopedHandlers scope

/-- The empty event bus (`new EventBus()`). -/
def EventBus.empty : EventBus := ⟨[], []⟩

/-- Plugin lifecycle states (`PluginState` in `src/kernel.ts`). -/
inductive PluginState where
  | registered
  | initializing
  | active
  | error
  | destroyed
deriving DecidableEq, Repr

/-- Kernel initialization states (`KernelState` in `src/kernel.ts`). -/
inductive KernelState where
  | idle
  | initializing
  | initialized
  | destroyed
deriving DecidableEq, Repr

/-- The plugin contract (`src/types.ts`): lifecycle hooks are modelled by
presence and outcome. -/
structure Plugin where
  name : String
  version : String
  /-- `dependencies` (absent is modelled as the empty list, which the
  kernel treats identically) -/
  dependencies : List String
  /-- outcome of the mandatory synchronous `install` hook: `none` =
  returns normally, `some e` = throws error `e` -/
  installOutcome : Option Nat
  /-- `onInit`: `none` = hook absent, `some none` = present and resolves,
  `some (some e)` = present and rejects with error `e` -/
  onInit : Option (Option Nat)
  /-- `onDestroy`, same encoding as `onInit` -/
  onDestroy : Option (Option Nat)
  /-- whether the optional `onError` hook is present -/
  hasOnError : Bool
deriving DecidableEq, Repr

/-- `PluginEntry`: a registered plugin with its lifecycle state. The
entry's `ScopedEventBus` is always bound to the kernel's bus under the
scope `plugin.name`, so it needs no separate field: its `destroy()` is
`removeScope plugin.name` on the kernel's bus. -/
structure PluginEntry where
  plugin : Plugin
  state : PluginState
deriving DecidableEq, Repr

/-- The kernel (`Kernel` in `src/kernel.ts`): the insertion-ordered plugin
registry, the event bus, and the kernel state. `initPromise` has no
sequential counterpart; the single-flight guard it implements is modelled
by `initSync` below. -/
structure Kernel where
  plugins : List (String × PluginEntry)
  eventBus : EventBus
  state : KernelState
deriving DecidableEq, Repr

/-- A fresh kernel (`new Kernel()`). -/
def Kernel.new : Kernel := ⟨[], EventBus.empty, KernelState.idle⟩

/-- The registry's key list (registration order). -/
def Kernel.keys (k : Kernel) : List String := k.plugins.map Prod.fst

/-- Overwrite the lifecycle state of one entry (the JavaScript code mutates
the aliased entry object; here the update goes through the map). -/
def Kernel.setPluginState (k : Kernel) (name : String) (s : PluginState) : Kernel :=
  match alGet k.plugins name with
  | none => k
  | some entry => { k with plugins := alSet k.plugins name { entry with state := s } }

/-- `Kernel.initPlugin`: skips entries that are not in state `registered`;
otherwise marks the entry `initializing`, emits `plugin:initializing`,
awaits `onInit` when present (invoking `onError` and rethrowing on
failure), then marks it `active` and emits `plugin:initialized`. -/
def Kernel.initPlugin (k : Kernel) (name : String) :
    Kernel × List TraceEv × Option KError :=
  match alGet k.plugins name with
  | none => (k, [], none)
  | some entry =>
    if entry.state ≠ PluginState.registered then (k, [], none)
    else
      let k1 := k.setPluginState name PluginState.initializing
      let t1 := k1.eventBus.emit "plugin:initializing"
      match entry.plugin.onInit with
      | none =>
        let k2 := k1.setPluginState name PluginState.active
        let t2 := k2.eventBus.emit "plugin:initialized"
        (k2, t1 ++ t2, none)
      | some none =>
        let k2 := k1.setPluginState name PluginState.active
        let t2 := k2.eventBus.emit "plugin:initialized"
        (k2, t1 ++ [TraceEv.onInitCall name] ++ t2, none)
      | some (some e) =>
        let terr := if entry.plugin.hasOnError then [TraceEv.onErrorCall name] else []
        (k1, t1 ++ [TraceEv.onInitCall name] ++ terr, some (KError.hookError e))

/-- `Kernel.destroyPlugin`: skips entries already `destroyed`; otherwise
releases the entry's scoped listeners, awaits `onDestroy` when present
(a throw propagates, leaving the state unchanged), then marks the entry
`destroyed`. -/
def Kernel.destroyPlugin (k : Kernel) (name : String) :
    Kernel × List TraceEv × Option KError :=
  match alGet k.plugins name with
  | none => (k, [], none)
  | some entry =>
    if entry.state = PluginState.destroyed then (k, [], none)
    else
      let k1 := { k with eventBus := k.eventBus.removeScope name }
      match entry.plugin.onDestroy with
      | none => (k1.setPluginState name PluginState.destroyed, [], none)
      | some none =>
        (k1.setPluginState name PluginState.destroyed, [TraceEv.onDestroyCall name], none)
      | some (some e) =>
        (k1, [TraceEv.onDestroyCall name], some (KError.hookError e))

/-- `Kernel.register`: rejects duplicate names, then missing dependencies
(first missing one, in declaration order); otherwise stores a `registered`
entry with a fresh scoped bus and invokes `install`, undoing both and
rethrowing if it throws; on success emits `plugin:registered` and, when
the kernel is already `initialized`, runs the fire-and-forget late
initialization whose failure is routed to `plugin:error`, never to the
caller. -/
def Kernel.register (k : Kernel) (p : Plugin) :
    Kernel × List TraceEv × Option KError :=
  if alHas k.plugins p.name then
    (k, [], some (KError.pluginAlreadyRegistered p.name))
  else
    match p.dependencies.find? (fun d => ! alHas k.plugins d) with
    | some d => (k, [], some (KError.pluginDependencyMissing p.name d))
    | none =>
      let entry : PluginEntry := ⟨p, PluginState.registered⟩
      let k1 := { k with plugins := alSet k.plugins p.name entry }
      match p.installOutcome with
      | some e =>
        let k2 := { k1 with
          plugins := alDelete k1.plugins p.name,
          eventBus := k1.eventBus.removeScope p.name }
        (k2, [TraceEv.installCall p.name], some (KError.hookError e))
      | none =>
        let t1 := [TraceEv.installCall p.name] ++ k1.eventBus.emit "plugin:registered"
        if k1.state = KernelState.initialized then
          match k1.initPlugin p.name with
          | (k2, t2, none) => (k2, t1 ++ t2, none)
          | (k2, t2, some _) =>
            let k3 := k2.setPluginState p.name PluginState.error
            let t3 := k3.eventBus.emit "plugin:error"
            (k3, t1 ++ t2 ++ t3, none)
        else (k1, t1, none)

/-- The recursive `visit` of `Kernel.topologicalSort`, with an explicit
recursion-depth budget (`fuel`); `fuel` exhaustion is unreachable whenever
`fuel` exceeds the registry size, because every recursive call pushes a
fresh registered name onto `path`. In the source, `visiting` always holds
exactly the names of `path` (both are pushed and popped together and every
top-level call starts with `visiting` empty again), so `path` serves as
both; likewise the `visited` set always holds exactly the names already
pushed onto `result`, so the accumulated result serves as `visited`. The
result is the list of visited names in push order (the source pushes the
corresponding entries; `doInit` below looks entries up by name, which is
how the aliased entry objects behave). -/
def Kernel.visit (k : Kernel) :
    Nat → String → List String → List String → Except KError (List String)
  | 0, _, _, _ => Except.error KError.outOfFuel
  | fuel + 1, name, path, acc =>
    if name ∈ acc then Except.ok acc
    else if name ∈ path then
      Except.error (KError.circularDependency
        (path.drop (path.indexOf name) ++ [name]))
    else
      match alGet k.plugins name with
      | none => Except.ok acc
      | some entry =>
        match entry.plugin.dependencies.foldlM
            (fun a d => k.visit fuel d (path ++ [name]) a) acc with
        | Except.error e => Except.error e
        | Except.ok a => Except.ok (a ++ [name])

/-- `Kernel.topologicalSort`: depth-first search over every registered
name, detecting cycles; returns the names in dependency order. -/
def Kernel.topologicalSort (k : Kernel) : Except KError (List String) :=
  k.plugins.foldlM (fun acc pr => k.visit (k.plugins.length + 1) pr.1 [] acc) []

/-- The rollback loop of `Kernel.doInit`: destroys the given (already
reversed) initialized plugins one by one; a destroy failure is caught and
logged, never rethrown. -/
def Kernel.rollback (k : Kernel) : List String → Kernel × List TraceEv
  | [] => (k, [])
  | name :: rest =>
    match k.destroyPlugin name with
    | (k1, t1, none) =>
      let (k2, t2) := k1.rollback rest
      (k2, t1 ++ t2)
    | (k1, t1, some _) =>
      let (k2, t2) := k1.rollback rest
      (k2, t1 ++ [TraceEv.rollbackLog name] ++ t2)

/-- The main loop of `Kernel.doInit` over the sorted names, carrying the
stack of plugins initialized so far in this pass. On a failure the failing
entry is marked `error`, the stack is rolled back in reverse order, the
kernel returns to `idle`, and a wrapped `PluginInitializationError` is
thrown; when the loop completes the kernel becomes `initialized` and emits
`kernel:initialized`. -/
def Kernel.doInitLoop (k : Kernel) :
    List String → List String → Kernel × List TraceEv × Option KError
  | [], _ =>
    let k1 := { k with state := KernelState.initialized }
    (k1, k1.eventBus.emit "kernel:initialized", none)
  | name :: rest, stack =>
    match k.initPlugin name with
    | (k1, t1, none) =>
      let (k2, t2, r) := k1.doInitLoop rest (stack ++ [name])
      (k2, t1 ++ t2, r)
    | (k1, t1, some err) =>
      let k2 := k1.setPluginState name PluginState.error
      let (k3, t3) := k2.rollback stack.reverse
      let k4 := { k3 with state := KernelState.idle }
      (k4, t1 ++ t3, some (KError.pluginInitialization name err))

/-- `Kernel.doInit`: topological sort followed by the initialization loop.
A `CircularDependencyError` from the sort propagates directly (note the
kernel state, already set to `initializing` by `init`, is not reset on
that path). -/
def Kernel.doInit (k : Kernel) : Kernel × List TraceEv × Option KError :=
  match k.topologicalSort with
  | Except.error e => (k, [], some e)
  | Except.ok sorted => k.doInitLoop sorted []

/-- `Kernel.init`, sequential semantics: a no-op when `initialized`; when
`initializing` it awaits the in-flight promise (with no in-flight
operation in a sequential run, `initPromise` is `null` and awaiting it
resolves immediately); fails on a `destroyed` kernel; otherwise sets the
state to `initializing` and runs `doInit`. -/
def Kernel.init (k : Kernel) : Kernel × List TraceEv × Option KError :=
  match k.state with
  | KernelState.initialized => (k, [], none)
  | KernelState.initializing => (k, [], none)
  | KernelState.destroyed => (k, [], some KError.destroyedKernel)
  | KernelState.idle => Kernel.doInit { k with state := KernelState.initializing }

/-- The synchronous prefix of `Kernel.init`, which is what a caller
executes atomically before the first suspension point: it decides whether
this call is a no-op (`initialized`), joins the in-flight initialization
(`initializing`), rejects (`destroyed`), or flips the state to
`initializing` and starts the single underlying `doInit` itself. -/
inductive InitCallKind where
  | noop
  | joined
  | rejected
  | started
deriving DecidableEq, Repr

/-- See `InitCallKind`. -/
def Kernel.initSync (k : Kernel) : Kernel × InitCallKind :=
  match k.state with
  | KernelState.initialized => (k, InitCallKind.noop)
  | KernelState.initializing => (k, InitCallKind.joined)
  | KernelState.destroyed => (k, InitCallKind.rejected)
  | KernelState.idle => ({ k with state := KernelState.initializing }, InitCallKind.started)

/-- `n` concurrent `init()` callers: each runs the synchronous prefix in
turn (none of the in-flight work completes in between, since `doInit`
suspends at its first `await`). Returns the kernel after all prefixes and
the per-caller outcome list. -/
def Kernel.initFanOut (k : Kernel) : Nat → Kernel × List InitCallKind
  | 0 => (k, [])
  | n + 1 =>
    let (k1, r) := k.initSync
    let (k2, rs) := k1.initFanOut n
    (k2, r :: rs)

/-- `Kernel.unregister`: fails when the plugin is absent or another
registered plugin depends on it (naming both); otherwise destroys the
entry (an `onDestroy` throw propagates and leaves the entry registered),
removes it from the registry and emits `plugin:unregistered`. -/
def Kernel.unregister (k : Kernel) (name : String) :
    Kernel × List TraceEv × Option KError :=
  match alGet k.plugins name with
  | none => (k, [], some (KError.pluginNotFound name))
  | some _ =>
    match k.plugins.find?
        (fun pr => pr.1 != name && pr.2.plugin.dependencies.contains name) with
    | some pr => (k, [], some (KError.cannotUnregister name pr.1))
    | none =>
      match k.destroyPlugin name with
      | (k1, t1, none) =>
        let k2 := { k1 with plugins := alDelete k1.plugins name }
        let t2 := k2.eventBus.emit "plugin:unregistered"
        (k2, t1 ++ t2, none)
      | (k1, t1, some e) => (k1, t1, some e)

/-- The teardown loop of `Kernel.destroy`: best-effort destroy of every
entry, logging (never rethrowing) failures. -/
def Kernel.destroyLoop (k : Kernel) : List String → Kernel × List TraceEv
  | [] => (k, [])
  | name :: rest =>
    match k.destroyPlugin name with
    | (k1, t1, none) =>
      let (k2, t2) := k1.destroyLoop rest
      (k2, t1 ++ t2)
    | (k1, t1, some _) =>
      let (k2, t2) := k1.destroyLoop rest
      (k2, t1 ++ [TraceEv.destroyLog name] ++ t2)

/-- `Kernel.destroy`: a no-op when already `destroyed`; otherwise tears
every entry down in reverse topological order, clears the registry,
removes all event-bus listeners, sets the state to `destroyed` and only
then emits `kernel:destroyed`. -/
def Kernel.destroy (k : Kernel) : Kernel × List TraceEv × Option KError :=
  if k.state = KernelState.destroyed then (k, [], none)
  else
    match k.topologicalSort with
    | Except.error e => (k, [], some e)
    | Except.ok sorted =>
      let (k1, t1) := k.destroyLoop sorted.reverse
      let k2 := { k1 with
        plugins := [],
        eventBus := k1.eventBus.removeAllListeners none,
        state := KernelState.destroyed }
      let t2 := k2.eventBus.emit "kernel:destroyed"
      (k2, t1 ++ t2, none)

/-- `Kernel.hasPlugin`. -/
def Kernel.hasPlugin (k : Kernel) (name : String) : Bool :=
  alHas k.plugins name

/-- `Kernel.getPluginState`. -/
def Kernel.getPluginState (k : Kernel) (name : String) : Option PluginState :=
  (alGet k.plugins name).map PluginEntry.state

/-! Concrete fixtures: the dependency chain A ← B ← C from the spec's
acceptance scenarios, in a failing variant (B's `onInit` throws) and a
succeeding variant. -/

/-- Plugin A: no dependencies, `onInit` and `onDestroy` present and
succeeding. -/
def chainA : Plugin := ⟨"A", "1.0.0", [], none, some none, some none, false⟩

/-- Plugin B: depends on A; its `onInit` is present and throws error 7;
`onError` is present. -/
def chainBFail : Plugin := ⟨"B", "1.0.0", ["A"], none, some (some 7), some none, true⟩

/-- Plugin B, succeeding variant. -/
def chainB : Plugin := ⟨"B", "1.0.0", ["A"], none, some none, some none, false⟩

/-- Plugin C: depends on B, `onInit` present and succeeding. -/
def chainC : Plugin := ⟨"C", "1.0.0", ["B"], none, some none, some none, false⟩

/-- Registry entry for a freshly registered plugin. -/
def regEntry (p : Plugin) : String × PluginEntry := (p.name, ⟨p, PluginState.registered⟩)

/-- Kernel holding the failing chain A, B(throws), C, all `registered`. -/
def kernelFail : Kernel :=
  ⟨[regEntry chainA, regEntry chainBFail, regEntry chainC], EventBus.empty, KernelState.idle⟩

/-- Kernel holding the succeeding chain. -/
def kernelChain : Kernel :=
  ⟨[regEntry chainA, regEntry chainB, regEntry chainC], EventBus.empty, KernelState.idle⟩

/-- Kernel with the cycle A→B→C→A (each plugin naming the next as its
dependency). -/
def kernelCycle : Kernel :=
  ⟨[("A", ⟨⟨"A", "1.0.0", ["B"], none, none, none, false⟩, PluginState.registered⟩),
    ("B", ⟨⟨"B", "1.0.0", ["C"], none, none, none, false⟩, PluginState.registered⟩),
    ("C", ⟨⟨"C", "1.0.0", ["A"], none, none, none, false⟩, PluginState.registered⟩)],
   EventBus.empty, KernelState.idle⟩

/-- Kernel holding one active plugin "S" whose scoped bus subscribed the
handler 5 to the event "evt". -/
def kernelScoped : Kernel :=
  ⟨[("S", ⟨⟨"S", "1.0.0", [], none, none, some none, false⟩, PluginState.active⟩)],
   ⟨[("evt", [⟨5, false⟩])], [("S", [("evt", [⟨5, false⟩])])]⟩,
   KernelState.initialized⟩

/-- Whether a trace event is a handler invocation. -/
def TraceEv.isCall : TraceEv → Bool
  | TraceEv.handlerCall _ _ => true
  | _ => false

/-- Whether a trace event is an `onInit` invocation. -/
def TraceEv.isOnInit : TraceEv → Bool
  | TraceEv.onInitCall _ => true
  | _ => false

/-- A name list is dependency-ordered for a kernel: wherever a registered
plugin occurs, every one of its dependencies that is itself registered
occurs strictly earlier. -/
def Kernel.depsPrecede (k : Kernel) (l : List String) : Prop :=
  ∀ l1 n l2, l = l1 ++ n :: l2 → ∀ entry, alGet k.plugins n = some entry →
    ∀ d ∈ entry.plugin.dependencies, alHas k.plugins d = true → d ∈ l1

/-- What one `visit` call does to the accumulated result: it only appends,
appends only registered names without creating duplicates, never appends a
name that is on the current DFS path, and preserves dependency order. -/
def Kernel.VisitOut (k : Kernel) (path acc acc' : List String) : Prop :=
  (∃ t, acc' = acc ++ t) ∧
  (acc.Nodup → acc'.Nodup) ∧
  (∀ x ∈ acc', x ∈ acc ∨ alHas k.plugins x = true) ∧
  (∀ p ∈ path, p ∉ acc → p ∉ acc') ∧
  (k.depsPrecede acc → k.depsPrecede acc')

/-- The registry invariant maintained by `register`/`unregister`: keys are
unique and every declared dependency of every entry is registered at a
strictly earlier position (dependency edges point backwards in
registration order, so the graph is acyclic). -/
def Kernel.RegistryInv (k : Kernel) : Prop :=
  k.keys.Nodup ∧
  ∀ pr ∈ k.plugins, ∀ d ∈ pr.2.plugin.dependencies,
    d ∈ k.keys ∧ k.keys.indexOf d < k.keys.indexOf pr.1

/-- C1: with A (no deps), B (deps=[A], `onInit` throws), C (deps=[B])
registered, `init()` invokes A's `onInit`, then B's `onInit`, then B's
`onError` with the cause, and only then the rollback teardown (A's
`onDestroy`); A's `onDestroy` runs exactly once, the kernel state returns
to `idle`, and `init()` rejects with a `PluginInitializationError` naming
"B" and wrapping the original cause. -/
theorem kernel_init_failure_rollback :
    (Kernel.init kernelFail).2.1 =
      [TraceEv.onInitCall "A", TraceEv.onInitCall "B",
       TraceEv.onErrorCall "B", TraceEv.onDestroyCall "A"] ∧
    ((Kernel.init kernelFail).2.1.count (TraceEv.onDestroyCall "A") = 1) ∧
    (Kernel.init kernelFail).1.state = KernelState.idle ∧
    (Kernel.init kernelFail).2.2 =
      some (KError.pluginInitialization "B" (KError.hookError 7)) := by
  decide

/-- C5: with the registry containing the cycle A→B→C→A, `init()` rejects
with `CircularDependencyError` carrying the ordered cycle of plugin
names. -/
theorem kernel_init_cycle_rejects :
    (Kernel.init kernelCycle).2.2 =
      some (KError.circularDependency ["A", "B", "C", "A"]) := by
  decide

/-- C9: after `init()` rejects on the failing chain, every plugin is still
present in the registry; the failing plugin B is left in state `error` and
the rolled-back plugin A in state `destroyed` (not restored to
`registered`); a second `init()` on the now-`idle` kernel resolves
successfully without invoking the `onInit` hook of A or B (it only
initializes C, which stayed `registered`); in general `initPlugin` is a
no-op on any entry whose state is not `registered`. -/
theorem kernel_init_after_failure (k' : Kernel)
    (hk : k' = (Kernel.init kernelFail).1)
    (k : Kernel) (name : String) (entry : PluginEntry)
    (hget : alGet k.plugins name = some entry)
    (hstate : entry.state ≠ PluginState.registered) :
    k'.hasPlugin "A" = true ∧ k'.hasPlugin "B" = true ∧ k'.hasPlugin "C" = true ∧
    k'.getPluginState "A" = some PluginState.destroyed ∧
    k'.getPluginState "B" = some PluginState.error ∧
    k'.getPluginState "C" = some PluginState.registered ∧
    k'.state = KernelState.idle ∧
    (Kernel.init k').2.2 = none ∧
    (Kernel.init k').1.state = KernelState.initialized ∧
    (Kernel.init k').2.1 = [TraceEv.onInitCall "C"] ∧
    k.initPlugin name = (k, [], none) := by
  subst hk
  refine ⟨by decide, by decide, by decide, by decide, by decide, by decide,
    by decide, by decide, by decide, by decide, ?_⟩
  unfold Kernel.initPlugin
  rw [hget]
  simp [hstate]

/-- Witness for `kernel_init_after_failure` at the concrete failed kernel
and a concrete non-`registered` entry. -/
theorem kernel_init_after_failure_witness :
    ((Kernel.init kernelFail).1 = (Kernel.init kernelFail).1 ∧
      alGet (Kernel.init kernelFail).1.plugins "B" =
        some ⟨chainBFail, PluginState.error⟩ ∧
      PluginState.error ≠ PluginState.registered) ∧
    (Kernel.init kernelFail).1.hasPlugin "A" = true := by
  refine ⟨⟨rfl, by decide, by decide⟩, ?_⟩
  exact (kernel_init_after_failure (Kernel.init kernelFail).1 rfl
    (Kernel.init kernelFail).1 "B" ⟨chainBFail, PluginState.error⟩
    (by decide) (by decide)).1
/-! Helper lemmas about the association-list operations. -/

theorem alGet_eq_none_iff {β : Type} {l : List (String × β)} {key : String} :
    alGet l key = none ↔ key ∉ l.map Prod.fst := by
  induction l with
  | nil => simp [alGet]
  | cons pr rest ih =>
    obtain ⟨k, v⟩ := pr
    by_cases h : k = key
    · subst h
      simp [alGet]
    · simp [alGet, h, ih, Ne.symm h]

theorem alHas_false_iff {β : Type} {l : List (String × β)} {key : String} :
    alHas l key = false ↔ key ∉ l.map Prod.fst := by
  rw [← alGet_eq_none_iff]
  unfold alHas
  cases alGet l key <;> simp

theorem alHas_true_iff {β : Type} {l : List (String × β)} {key : String} :
    alHas l key = true ↔ key ∈ l.map Prod.fst := by
  rw [← not_iff_not, ← alHas_false_iff]
  simp

theorem alGet_mem {β : Type} {l : List (String × β)} {key : String} {v : β}
    (h : alGet l key = some v) : (key, v) ∈ l := by
  induction l with
  | nil => simp [alGet] at h
  | cons pr rest ih =>
    obtain ⟨k, w⟩ := pr
    by_cases hk : k = key
    · subst hk
      simp [alGet] at h
      simp [h]
    · simp [alGet, hk] at h
      simp [ih h]

theorem alGet_alSet_self {β : Type} {l : List (String × β)} {key : String} {v : β} :
    alGet (alSet l key v) key = some v := by
  induction l with
  | nil => simp [alSet, alGet]
  | cons pr rest ih =>
    obtain ⟨k, w⟩ := pr
    by_cases hk : k = key
    · subst hk
      simp [alSet, alGet]
    · simp [alSet, alGet, hk, ih]

theorem alGet_alSet_ne {β : Type} {l : List (String × β)} {k' key : String} {v : β}
    (h : k' ≠ key) : alGet (alSet l key v) k' = alGet l k' := by
  induction l with
  | nil => simp [alSet, alGet, Ne.symm h]
  | cons pr rest ih =>
    obtain ⟨k, w⟩ := pr
    by_cases hk : k = key
    · subst hk
      simp [alSet, alGet, Ne.symm h, h]
    · simp [alSet, alGet, hk, ih]

theorem alGet_alDelete_ne {β : Type} {l : List (String × β)} {k' key : String}
    (h : k' ≠ key) : alGet (alDelete l key) k' = alGet l k' := by
  induction l with
  | nil => simp [alDelete]
  | cons pr rest ih =>
    obtain ⟨k, w⟩ := pr
    by_cases hk : k = key
    · subst hk
      simp [alDelete, alGet, Ne.symm h]
    · simp [alDelete, alGet, hk, ih]

theorem keys_alDelete {β : Type} {l : List (String × β)} {key : String} :
    (alDelete l key).map Prod.fst = (l.map Prod.fst).erase key := by
  induction l with
  | nil => simp [alDelete]
  | cons pr rest ih =>
    obtain ⟨k, w⟩ := pr
    by_cases hk : k = key
    · subst hk
      simp [alDelete, List.erase_cons]
    · simp [alDelete, List.erase_cons, hk, ih]

theorem alDelete_sublist {β : Type} (l : List (String × β)) (key : String) :
    (alDelete l key).Sublist l := by
  induction l with
  | nil => simp [alDelete]
  | cons pr rest ih =>
    obtain ⟨k, w⟩ := pr
    by_cases hk : k = key
    · simp only [alDelete, if_pos hk]
      exact List.sublist_cons_self _ _
    · simp only [alDelete, if_neg hk]
      exact ih.cons₂ _

theorem alGet_alDelete_self {β : Type} {l : List (String × β)} {key : String}
    (h : (l.map Prod.fst).Nodup) : alGet (alDelete l key) key = none := by
  induction l with
  | nil => simp [alDelete, alGet]
  | cons pr rest ih =>
    obtain ⟨k, w⟩ := pr
    rw [List.map_cons, List.nodup_cons] at h
    by_cases hk : k = key
    · subst hk
      simp only [alDelete, if_pos rfl]
      rw [alGet_eq_none_iff]
      exact h.1
    · simp only [alDelete, if_neg hk, alGet, if_neg hk]
      exact ih h.2

theorem alSet_not_has {β : Type} {l : List (String × β)} {key : String} {v : β}
    (h : alHas l key = false) : alSet l key v = l ++ [(key, v)] := by
  induction l with
  | nil => simp [alSet]
  | cons pr rest ih =>
    obtain ⟨k, w⟩ := pr
    rw [alHas_false_iff, List.map_cons, List.mem_cons] at h
    push_neg at h
    obtain ⟨h1, h2⟩ := h
    simp only [alSet, if_neg (Ne.symm h1)]
    rw [ih (by rw [alHas_false_iff]; exact h2)]
    simp

theorem alDelete_append_not_has {β : Type} {l : List (String × β)} {key : String} {v : β}
    (h : alHas l key = false) : alDelete (l ++ [(key, v)]) key = l := by
  induction l with
  | nil => simp [alDelete]
  | cons pr rest ih =>
    obtain ⟨k, w⟩ := pr
    rw [alHas_false_iff, List.map_cons, List.mem_cons] at h
    push_neg at h
    obtain ⟨h1, h2⟩ := h
    rw [List.cons_append]
    simp only [alDelete, if_neg (Ne.symm h1)]
    rw [ih (by rw [alHas_false_iff]; exact h2)]

theorem alDelete_alSet {β : Type} {l : List (String × β)} {key : String} {v : β}
    (h : alHas l key = false) : alDelete (alSet l key v) key = l := by
  rw [alSet_not_has h, alDelete_append_not_has h]

theorem keys_alSet_of_has {β : Type} {l : List (String × β)} {key : String} {v : β}
    (h : alHas l key = true) : (alSet l key v).map Prod.fst = l.map Prod.fst := by
  induction l with
  | nil => simp [alHas, alGet] at h
  | cons pr rest ih =>
    obtain ⟨k, w⟩ := pr
    by_cases hk : k = key
    · subst hk
      simp [alSet]
    · rw [alHas_true_iff, List.map_cons, List.mem_cons] at h
      rcases h with h | h
      · exact absurd h.symm hk
      · simp only [alSet, if_neg hk, List.map_cons]
        rw [ih (by rw [alHas_true_iff]; exact h)]

theorem mem_alSet {β : Type} {l : List (String × β)} {key : String} {v : β}
    {pr : String × β} (h : pr ∈ alSet l key v) : pr ∈ l ∨ pr = (key, v) := by
  induction l with
  | nil => simp [alSet] at h; simp [h]
  | cons q rest ih =>
    obtain ⟨k, w⟩ := q
    by_cases hk : k = key
    · subst hk
      simp [alSet] at h
      rcases h with h | h
      · right; simp [h]
      · left; simp [h]
    · simp [alSet, hk] at h
      rcases h with h | h
      · left; simp [h]
      · rcases ih h with h2 | h2
        · left; simp [h2]
        · right; exact h2

theorem alHas_of_mem {β : Type} {l : List (String × β)} {pr : String × β}
    (h : pr ∈ l) : alHas l pr.1 = true := by
  rw [alHas_true_iff]
  exact List.mem_map_of_mem Prod.fst h

/-! Helper lemmas about the event bus. -/

/-- Every event in `emit`'s trace is an invocation (or error log) of one of
the handlers registered for the emitted event. -/
theorem mem_emit {b : EventBus} {event : String} {ev : TraceEv}
    (h : ev ∈ b.emit event) :
    ∃ hd, hd ∈ b.handlersFor event ∧
      (ev = TraceEv.handlerCall event hd.hid ∨ ev = TraceEv.handlerLog event hd.hid) := by
  unfold EventBus.emit at h
  rw [List.mem_flatMap] at h
  obtain ⟨hd, hmem, hin⟩ := h
  refine ⟨hd, hmem, ?_⟩
  rcases List.mem_cons.1 hin with h1 | h1
  · left; exact h1
  · right
    by_cases ht : hd.hthrows <;> simp [ht] at h1
    exact h1

theorem onInitCall_not_mem_emit {b : EventBus} {event name : String} :
    TraceEv.onInitCall name ∉ b.emit event := by
  intro h
  obtain ⟨hd, _, h1 | h1⟩ := mem_emit h <;> cases h1

theorem onDestroyCall_not_mem_emit {b : EventBus} {event name : String} :
    TraceEv.onDestroyCall name ∉ b.emit event := by
  intro h
  obtain ⟨hd, _, h1 | h1⟩ := mem_emit h <;> cases h1

theorem handlerCall_mem_emit_eq {b : EventBus} {event e : String} {i : Nat}
    (h : TraceEv.handlerCall e i ∈ b.emit event) : e = event := by
  obtain ⟨hd, _, h1 | h1⟩ := mem_emit h <;> cases h1
  rfl

/-- `off` never touches the scoped-handler table. -/
theorem off_scopedHandlers (b : EventBus) (event : String) (h : Handler) :
    (b.off event h).scopedHandlers = b.scopedHandlers := by
  unfold EventBus.off
  cases alGet b.listeners event <;> simp
  split <;> rfl

/-- `off` preserves uniqueness of the listener map's keys. -/
theorem off_keysNodup {b : EventBus} (event : String) (h : Handler)
    (hw : (b.listeners.map Prod.fst).Nodup) :
    ((b.off event h).listeners.map Prod.fst).Nodup := by
  unfold EventBus.off
  cases hget : alGet b.listeners event with
  | none => exact hw
  | some s =>
    simp only
    split
    · rw [keys_alDelete]
      exact hw.erase event
    · rw [keys_alSet_of_has]
      · exact hw
      · unfold alHas
        rw [hget]
        rfl

/-- `off` only ever removes handlers: anyone listening after `off` was
listening before. -/
theorem off_handlersFor_subset {b : EventBus} {event : String} {h : Handler}
    (hw : (b.listeners.map Prod.fst).Nodup) (e : String) :
    (b.off event h).handlersFor e ⊆ b.handlersFor e := by
  unfold EventBus.off
  cases hget : alGet b.listeners event with
  | none => exact fun x hx => hx
  | some s =>
    simp only
    by_cases he : e = event
    · subst he
      split
      · unfold EventBus.handlersFor
        rw [alGet_alDelete_self hw, hget]
        intro x hx
        simp at hx
      · unfold EventBus.handlersFor
        rw [alGet_alSet_self, hget]
        intro x hx
        simp at hx
        exact hx.1
    · split
      · unfold EventBus.handlersFor
        rw [alGet_alDelete_ne he]
        exact fun x hx => hx
      · unfold EventBus.handlersFor
        rw [alGet_alSet_ne he]
        exact fun x hx => hx

/-- After `off event h`, the handler `h` no longer listens on `event`. -/
theorem off_removes {b : EventBus} (event : String) (h : Handler)
    (hw : (b.listeners.map Prod.fst).Nodup) :
    h ∉ (b.off event h).handlersFor event := by
  unfold EventBus.off
  cases hget : alGet b.listeners event with
  | none =>
    unfold EventBus.handlersFor
    rw [hget]
    simp
  | some s =>
    simp only
    split
    · unfold EventBus.handlersFor
      rw [alGet_alDelete_self hw]
      simp
    · unfold EventBus.handlersFor
      rw [alGet_alSet_self]
      intro hx
      simp at hx

/-- Removing handlers for one event leaves the scope table alone, so
`removeScope`'s inner fold only shrinks listener sets. -/
theorem foldl_off_scopedHandlers (hs : List Handler) (e : String) (b : EventBus) :
    (hs.foldl (fun a hh => a.off e hh) b).scopedHandlers = b.scopedHandlers := by
  induction hs generalizing b with
  | nil => rfl
  | cons hd tl ih => rw [List.foldl_cons, ih, off_scopedHandlers]

theorem foldl_off_keysNodup (hs : List Handler) (e : String) (b : EventBus)
    (hw : (b.listeners.map Prod.fst).Nodup) :
    (((hs.foldl (fun a hh => a.off e hh) b).listeners.map Prod.fst)).Nodup := by
  induction hs generalizing b with
  | nil => exact hw
  | cons hd tl ih => exact ih _ (off_keysNodup e hd hw)

theorem foldl_off_subset (hs : List Handler) (e : String) (b : EventBus)
    (hw : (b.listeners.map Prod.fst).Nodup) (e' : String) :
    (hs.foldl (fun a hh => a.off e hh) b).handlersFor e' ⊆ b.handlersFor e' := by
  induction hs generalizing b with
  | nil => exact fun x hx => hx
  | cons hd tl ih =>
    rw [List.foldl_cons]
    exact fun x hx =>
      off_handlersFor_subset hw e' (ih _ (off_keysNodup e hd hw) hx)

theorem foldl_off_removes (hs : List Handler) (e : String) (b : EventBus)
    (hw : (b.listeners.map Prod.fst).Nodup) (h : Handler) (hmem : h ∈ hs) :
    h ∉ (hs.foldl (fun a hh => a.off e hh) b).handlersFor e := by
  induction hs generalizing b with
  | nil => simp at hmem
  | cons hd tl ih =>
    rw [List.foldl_cons]
    rcases List.mem_cons.1 hmem with rfl | hmem2
    · intro hx
      exact off_removes e h hw (foldl_off_subset tl e _ (off_keysNodup e h hw) e hx)
    · exact ih _ (off_keysNodup e hd hw) hmem2

/-- The outer fold of `removeScope` over the scope's event map. -/
theorem removeScopeFold_scopedHandlers (pairs : List (String × List Handler)) (b : EventBus) :
    (pairs.foldl (fun acc pr => pr.2.foldl (fun acc2 h => acc2.off pr.1 h) acc) b).scopedHandlers
      = b.scopedHandlers := by
  induction pairs generalizing b with
  | nil => rfl
  | cons hd tl ih => rw [List.foldl_cons, ih, foldl_off_scopedHandlers]

theorem removeScopeFold_keysNodup (pairs : List (String × List Handler)) (b : EventBus)
    (hw : (b.listeners.map Prod.fst).Nodup) :
    ((pairs.foldl (fun acc pr => pr.2.foldl (fun acc2 h => acc2.off pr.1 h) acc)
        b).listeners.map Prod.fst).Nodup := by
  induction pairs generalizing b with
  | nil => exact hw
  | cons hd tl ih => exact ih _ (foldl_off_keysNodup hd.2 hd.1 b hw)

theorem removeScopeFold_subset (pairs : List (String × List Handler)) (b : EventBus)
    (hw : (b.listeners.map Prod.fst).Nodup) (e' : String) :
    (pairs.foldl (fun acc pr => pr.2.foldl (fun acc2 h => acc2.off pr.1 h) acc)
        b).handlersFor e' ⊆ b.handlersFor e' := by
  induction pairs generalizing b with
  | nil => exact fun x hx => hx
  | cons hd tl ih =>
    rw [List.foldl_cons]
    exact fun x hx =>
      foldl_off_subset hd.2 hd.1 b hw e'
        (ih _ (foldl_off_keysNodup hd.2 hd.1 b hw) hx)

theorem removeScopeFold_removes (pairs : List (String × List Handler)) (b : EventBus)
    (hw : (b.listeners.map Prod.fst).Nodup) (e : String) (hs : List Handler)
    (h : Handler) (hpair : (e, hs) ∈ pairs) (hmem : h ∈ hs) :
    h ∉ (pairs.foldl (fun acc pr => pr.2.foldl (fun acc2 hh => acc2.off pr.1 hh) acc)
        b).handlersFor e := by
  induction pairs generalizing b with
  | nil => simp at hpair
  | cons hd tl ih =>
    rw [List.foldl_cons]
    rcases List.mem_cons.1 hpair with rfl | hpair2
    · intro hx
      exact foldl_off_removes hs e b hw h hmem
        (removeScopeFold_subset tl _ (foldl_off_keysNodup hs e b hw) e hx)
    · exact ih _ (foldl_off_keysNodup hd.2 hd.1 b hw) hpair2

/-- `removeScope` on a scope the bus does not know is a no-op. -/
theorem removeScope_not_hasScope {b : EventBus} {scope : String}
    (h : b.hasScope scope = false) : b.removeScope scope = b := by
  unfold EventBus.removeScope
  unfold EventBus.hasScope alHas at h
  cases hget : alGet b.scopedHandlers scope with
  | none => rfl
  | some m => rw [hget] at h; simp at h

/-- After `removeScope scope`, no handler that was recorded under that scope
for an event still listens on that event. -/
theorem removeScope_removes {b : EventBus} {scope e : String} {h : Handler}
    (hw : (b.listeners.map Prod.fst).Nodup) (hmem : h ∈ b.scopedFor scope e) :
    h ∉ (b.removeScope scope).handlersFor e := by
  unfold EventBus.scopedFor at hmem
  unfold EventBus.removeScope
  cases hget : alGet b.scopedHandlers scope with
  | none => rw [hget] at hmem; simp [alGet] at hmem
  | some scopeMap =>
    rw [hget] at hmem
    simp only [Option.getD_some] at hmem
    cases hget2 : alGet scopeMap e with
    | none => rw [hget2] at hmem; simp at hmem
    | some hs =>
      rw [hget2] at hmem
      simp only [Option.getD_some] at hmem
      have : (EventBus.handlersFor
          { (scopeMap.foldl (fun acc pr => pr.2.foldl (fun acc2 hh => acc2.off pr.1 hh) acc) b)
            with scopedHandlers :=
              alDelete (scopeMap.foldl (fun acc pr => pr.2.foldl
                (fun acc2 hh => acc2.off pr.1 hh) acc) b).scopedHandlers scope } e)
          = (scopeMap.foldl (fun acc pr => pr.2.foldl (fun acc2 hh => acc2.off pr.1 hh) acc)
              b).handlersFor e := rfl
    
      rw [this]
      exact removeScopeFold_removes scopeMap b hw e hs h (alGet_mem hget2) hmem

/-- C6: every registration-time failure of `register` is synchronous and
leaves the kernel exactly as it was. A duplicate name throws
`PluginAlreadyRegisteredError` with the kernel untouched; a missing
declared dependency throws `PluginDependencyMissingError` (for the first
missing one) with the kernel untouched; and when `install` throws, the
freshly stored entry and its scoped bus are removed again and the error is
rethrown, so (as the bus holds no scope under the new name yet) the kernel
is again exactly the one from before the call. -/
theorem register_failure_no_residue :
    (∀ (k : Kernel) (p : Plugin), alHas k.plugins p.name = true →
      k.register p = (k, [], some (KError.pluginAlreadyRegistered p.name))) ∧
    (∀ (k : Kernel) (p : Plugin), alHas k.plugins p.name = false →
      (∃ d ∈ p.dependencies, alHas k.plugins d = false) →
      ∃ d', alHas k.plugins d' = false ∧
        k.register p = (k, [], some (KError.pluginDependencyMissing p.name d'))) ∧
    (∀ (k : Kernel) (p : Plugin) (e : Nat), alHas k.plugins p.name = false →
      (∀ d ∈ p.dependencies, alHas k.plugins d = true) →
      p.installOutcome = some e → k.eventBus.hasScope p.name = false →
      k.register p = (k, [TraceEv.installCall p.name], some (KError.hookError e))) := by
  refine ⟨?_, ?_, ?_⟩
  · intro k p h
    unfold Kernel.register
    rw [h]
    simp
  · intro k p hdup hmiss
    obtain ⟨d, hd, hdabs⟩ := hmiss
    have hfind : (p.dependencies.find? (fun d => ! alHas k.plugins d)).isSome := by
      rw [List.find?_isSome]
      exact ⟨d, hd, by rw [hdabs]; rfl⟩
    obtain ⟨d', hd'⟩ := Option.isSome_iff_exists.1 hfind
    refine ⟨d', ?_, ?_⟩
    · have := List.find?_some hd'
      simp at this
      exact this
    · unfold Kernel.register
      rw [hdup, hd']
      simp
  · intro k p e hdup hdeps hout hscope
    have hfind : p.dependencies.find? (fun d => ! alHas k.plugins d) = none := by
      rw [List.find?_eq_none]
      intro d hd
      rw [hdeps d hd]
      simp
    unfold Kernel.register
    rw [hdup, hfind, hout]
    simp only [Bool.false_eq_true, if_false]
    rw [alDelete_alSet hdup, removeScope_not_hasScope hscope]

/-- Witness for `register_failure_no_residue`: the three failure modes on
concrete kernels. -/
theorem register_failure_no_residue_witness :
    (alHas kernelChain.plugins "A" = true ∧
      kernelChain.register ⟨"A", "2.0.0", [], none, none, none, false⟩ =
        (kernelChain, [], some (KError.pluginAlreadyRegistered "A"))) ∧
    (∃ d', alHas kernelChain.plugins d' = false ∧
      kernelChain.register ⟨"Z", "1.0.0", ["Q"], none, none, none, false⟩ =
        (kernelChain, [], some (KError.pluginDependencyMissing "Z" d'))) ∧
    kernelChain.register ⟨"Z", "1.0.0", ["A"], some 3, none, none, false⟩ =
      (kernelChain, [TraceEv.installCall "Z"], some (KError.hookError 3)) := by
  refine ⟨⟨by decide, ?_⟩, ?_, ?_⟩
  · exact register_failure_no_residue.1 kernelChain _ (by decide)
  · exact register_failure_no_residue.2.1 kernelChain
      ⟨"Z", "1.0.0", ["Q"], none, none, none, false⟩ (by decide)
      ⟨"Q", by decide, by decide⟩
  · exact register_failure_no_residue.2.2 kernelChain
      ⟨"Z", "1.0.0", ["A"], some 3, none, none, false⟩ 3 (by decide)
      (by decide) rfl (by decide)

/-- C8: `emit` on an event with zero registered listeners produces no
effect at all (and, being a total function into a trace, cannot throw);
in general every registered handler for an event is invoked exactly once
per emission, in registration order, whether or not earlier handlers
threw; and concretely, with two handlers of which the first throws, the
first is invoked, its error is caught and logged, and the second is still
invoked, with nothing propagating to the caller. -/
theorem emit_no_listeners_and_isolation :
    (∀ (b : EventBus) (e : String), alGet b.listeners e = none → b.emit e = []) ∧
    (∀ (b : EventBus) (e : String),
      (b.emit e).filter TraceEv.isCall =
        (b.handlersFor e).map (fun h => TraceEv.handlerCall e h.hid)) ∧
    (∀ (b : EventBus) (e : String) (h1 h2 : Handler),
      b.handlersFor e = [h1, h2] → h1.hthrows = true →
      b.emit e = [TraceEv.handlerCall e h1.hid, TraceEv.handlerLog e h1.hid,
        TraceEv.handlerCall e h2.hid] ++
        (if h2.hthrows then [TraceEv.handlerLog e h2.hid] else [])) := by
  refine ⟨?_, ?_, ?_⟩
  · intro b e h
    unfold EventBus.emit EventBus.handlersFor
    rw [h]
    rfl
  · intro b e
    unfold EventBus.emit
    induction b.handlersFor e with
    | nil => rfl
    | cons hd tl ih =>
      rw [List.flatMap_cons, List.map_cons, List.filter_append, ih]
      by_cases ht : hd.hthrows <;> simp [ht, TraceEv.isCall]
  · intro b e h1 h2 hlist hthrow
    unfold EventBus.emit
    rw [hlist]
    by_cases ht : h2.hthrows <;> simp [ht, hthrow]

/-- Witness for `emit_no_listeners_and_isolation` on a concrete bus with
two handlers for "evt", the first of which throws. -/
theorem emit_no_listeners_and_isolation_witness :
    (EventBus.emit ⟨[("evt", [⟨0, true⟩, ⟨1, false⟩])], []⟩ "other" = []) ∧
    EventBus.emit ⟨[("evt", [⟨0, true⟩, ⟨1, false⟩])], []⟩ "evt" =
      [TraceEv.handlerCall "evt" 0, TraceEv.handlerLog "evt" 0,
        TraceEv.handlerCall "evt" 1] := by
  constructor
  · exact emit_no_listeners_and_isolation.1 ⟨[("evt", [⟨0, true⟩, ⟨1, false⟩])], []⟩
      "other" (by decide)
  · have h := emit_no_listeners_and_isolation.2.2
      ⟨[("evt", [⟨0, true⟩, ⟨1, false⟩])], []⟩ "evt" ⟨0, true⟩ ⟨1, false⟩ (by decide) rfl
    simpa using h

/-- The trace of a single `destroyPlugin` is at most the plugin's own
`onDestroy` invocation. -/
theorem destroyPlugin_trace (k : Kernel) (n : String) :
    (k.destroyPlugin n).2.1 = [] ∨ (k.destroyPlugin n).2.1 = [TraceEv.onDestroyCall n] := by
  unfold Kernel.destroyPlugin
  cases alGet k.plugins n with
  | none => left; rfl
  | some entry =>
    by_cases hs : entry.state = PluginState.destroyed
    · left; simp [hs]
    · cases ho : entry.plugin.onDestroy with
      | none => left; simp [hs, ho]
      | some o =>
        cases o with
        | none => right; simp [hs, ho]
        | some e => right; simp [hs, ho]

/-- The teardown loop never invokes any event handler. -/
theorem destroyLoop_no_handlerCall (names : List String) :
    ∀ (k : Kernel) (e : String) (i : Nat),
      TraceEv.handlerCall e i ∉ (k.destroyLoop names).2 := by
  induction names with
  | nil => intro k e i h; simp [Kernel.destroyLoop] at h
  | cons name rest ih =>
    intro k e i hmem
    unfold Kernel.destroyLoop at hmem
    rcases hdp : k.destroyPlugin name with ⟨k1, t1, r⟩
    rcases destroyPlugin_trace k name with ht | ht <;> rw [hdp] at ht <;>
      simp only at ht <;> subst ht <;> rw [hdp] at hmem <;> cases r <;>
      simp at hmem <;> exact ih k1 e i hmem

/-- C10: no handler is ever invoked with the `kernel:destroyed` event by
`destroy()`: every listener is removed from the bus before the event is
emitted, so the emission reaches zero listeners (and the teardown loop
before it emits nothing at all), for every kernel state whatsoever. -/
theorem kernel_destroyed_event_unobservable (k : Kernel) (i : Nat) :
    TraceEv.handlerCall "kernel:destroyed" i ∉ (k.destroy).2.1 := by
  unfold Kernel.destroy
  by_cases hs : k.state = KernelState.destroyed
  · simp [hs]
  · simp only [hs, if_false]
    cases hsort : k.topologicalSort with
    | error e => simp
    | ok sorted =>
      rcases hdl : k.destroyLoop sorted.reverse with ⟨k1, t1⟩
      simp only [hdl]
      intro hmem
      rw [List.mem_append] at hmem
      rcases hmem with hmem | hmem
      · have := destroyLoop_no_handlerCall sorted.reverse k "kernel:destroyed" i
        rw [hdl] at this
        exact this hmem
      · simp [EventBus.emit, EventBus.handlersFor, EventBus.removeAllListeners,
          alGet] at hmem

/-- C7 (part of the proof): the exact outcome of a successful `unregister`
of a dependency-free plugin whose `onDestroy` succeeds. -/
theorem unregister_success_eq {k : Kernel} {name : String} {entry : PluginEntry}
    (hget : alGet k.plugins name = some entry)
    (hnodep : ∀ pr ∈ k.plugins, pr.1 ≠ name → name ∉ pr.2.plugin.dependencies)
    (hstate : entry.state ≠ PluginState.destroyed)
    (hdestroy : entry.plugin.onDestroy = some none) :
    k.unregister name =
      ({ plugins := alDelete (alSet k.plugins name
            { entry with state := PluginState.destroyed }) name,
         eventBus := k.eventBus.removeScope name,
         state := k.state },
       [TraceEv.onDestroyCall name] ++
         EventBus.emit (k.eventBus.removeScope name) "plugin:unregistered", none) := by
  have hfind : k.plugins.find?
      (fun pr => pr.1 != name && pr.2.plugin.dependencies.contains name) = none := by
    rw [List.find?_eq_none]
    intro pr hpr
    by_cases h1 : pr.1 = name
    · simp [h1]
    · simp [h1, hnodep pr hpr h1]
  have hset : Kernel.setPluginState { k with eventBus := k.eventBus.removeScope name }
      name PluginState.destroyed =
      { plugins := alSet k.plugins name { entry with state := PluginState.destroyed },
        eventBus := k.eventBus.removeScope name,
        state := k.state } := by
    unfold Kernel.setPluginState
    rw [show ({ k with eventBus := k.eventBus.removeScope name } : Kernel).plugins =
      k.plugins from rfl, hget]
  have hdp : k.destroyPlugin name =
      ({ plugins := alSet k.plugins name { entry with state := PluginState.destroyed },
         eventBus := k.eventBus.removeScope name,
         state := k.state }, [TraceEv.onDestroyCall name], none) := by
    unfold Kernel.destroyPlugin
    rw [hget]
    rw [← hset]
    simp [hstate, hdestroy]
  unfold Kernel.unregister
  rw [hget, hfind, hdp]

/-- C7: when another registered plugin lists `name` as a dependency,
`unregister name` throws an error naming both plugins and leaves the
kernel exactly as it was; when no plugin depends on it (and it is present,
not yet destroyed, with a succeeding `onDestroy`), `unregister` succeeds,
invokes its `onDestroy` exactly once, removes it from the registry, and
releases its scoped listeners, so a subsequent `emit` of any event the
plugin had subscribed to through its scoped bus no longer reaches its
handler. -/
theorem unregister_guard_and_cleanup :
    (∀ (k : Kernel) (name : String) (pr : String × PluginEntry),
      alHas k.plugins name = true → pr ∈ k.plugins → pr.1 ≠ name →
      name ∈ pr.2.plugin.dependencies →
      ∃ other, other ≠ name ∧
        k.unregister name = (k, [], some (KError.cannotUnregister name other))) ∧
    (∀ (k : Kernel) (name : String) (entry : PluginEntry),
      (k.plugins.map Prod.fst).Nodup →
      (k.eventBus.listeners.map Prod.fst).Nodup →
      alGet k.plugins name = some entry →
      (∀ pr ∈ k.plugins, pr.1 ≠ name → name ∉ pr.2.plugin.dependencies) →
      entry.state ≠ PluginState.destroyed →
      entry.plugin.onDestroy = some none →
      (k.unregister name).2.2 = none ∧
      (k.unregister name).1.hasPlugin name = false ∧
      (k.unregister name).2.1.count (TraceEv.onDestroyCall name) = 1 ∧
      (∀ (e : String) (h : Handler), h ∈ k.eventBus.scopedFor name e →
        h ∉ ((k.unregister name).1.eventBus.handlersFor e))) := by
  constructor
  · intro k name pr hhas hmem hne hdep
    have hget : ∃ entry, alGet k.plugins name = some entry := by
      unfold alHas at hhas
      exact Option.isSome_iff_exists.1 hhas
    obtain ⟨entry, hget⟩ := hget
    have hfind : (k.plugins.find?
        (fun pr => pr.1 != name && pr.2.plugin.dependencies.contains name)).isSome := by
      rw [List.find?_isSome]
      refine ⟨pr, hmem, ?_⟩
      simp [hne, hdep]
    obtain ⟨pr', hpr'⟩ := Option.isSome_iff_exists.1 hfind
    have hprop := List.find?_some hpr'
    simp at hprop
    refine ⟨pr'.1, hprop.1, ?_⟩
    unfold Kernel.unregister
    rw [hget, hpr']
  · intro k name entry hnk hnb hget hnodep hstate hdestroy
    rw [unregister_success_eq hget hnodep hstate hdestroy]
    refine ⟨rfl, ?_, ?_, ?_⟩
    · unfold Kernel.hasPlugin
      have hkeys : ((alSet k.plugins name
          { entry with state := PluginState.destroyed }).map Prod.fst).Nodup := by
        rw [keys_alSet_of_has (by unfold alHas; rw [hget]; rfl)]
        exact hnk
      rw [alHas_false_iff, keys_alDelete]
      exact hkeys.not_mem_erase
    · simp only [List.count_append]
      rw [List.count_eq_zero.2 onDestroyCall_not_mem_emit]
      simp
    · intro e h hmem2
      exact removeScope_removes hnb hmem2

/-- Witness for `unregister_guard_and_cleanup`: unregistering "A" from the
chain fails because "B" depends on it; unregistering the dependency-free
"S" from `kernelScoped` succeeds, runs `onDestroy` once, removes it, and
its scoped handler 5 no longer listens on "evt". -/
theorem unregister_guard_and_cleanup_witness :
    (∃ other, other ≠ "A" ∧ kernelChain.unregister "A" =
      (kernelChain, [], some (KError.cannotUnregister "A" other))) ∧
    (kernelScoped.unregister "S").2.2 = none ∧
    (kernelScoped.unregister "S").1.hasPlugin "S" = false ∧
    (kernelScoped.unregister "S").2.1.count (TraceEv.onDestroyCall "S") = 1 ∧
    (⟨5, false⟩ : Handler) ∉ (kernelScoped.unregister "S").1.eventBus.handlersFor "evt" := by
  constructor
  · exact unregister_guard_and_cleanup.1 kernelChain "A"
      ("B", ⟨chainB, PluginState.registered⟩) (by decide) (by decide)
      (by decide) (by decide)
  · have h := unregister_guard_and_cleanup.2 kernelScoped "S"
      ⟨⟨"S", "1.0.0", [], none, none, some none, false⟩, PluginState.active⟩
      (by decide) (by decide) (by decide) (by decide) (by decide) rfl
    exact ⟨h.1, h.2.1, h.2.2.1, h.2.2.2 "evt" ⟨5, false⟩ (by decide)⟩

/-! Specification of the depth-first search underlying `topologicalSort`. -/

theorem VisitOut_refl (k : Kernel) (path acc : List String) : k.VisitOut path acc acc :=
  ⟨⟨[], by simp⟩, fun h => h, fun x hx => Or.inl hx, fun _ _ h => h, fun h => h⟩

theorem VisitOut_trans {k : Kernel} {path a b c : List String}
    (h1 : k.VisitOut path a b) (h2 : k.VisitOut path b c) : k.VisitOut path a c := by
  obtain ⟨⟨t1, ht1⟩, hn1, hm1, hp1, hd1⟩ := h1
  obtain ⟨⟨t2, ht2⟩, hn2, hm2, hp2, hd2⟩ := h2
  refine ⟨⟨t1 ++ t2, by rw [ht2, ht1, List.append_assoc]⟩, fun h => hn2 (hn1 h), ?_, ?_, ?_⟩
  · intro x hx
    rcases hm2 x hx with hx2 | hx2
    · exact hm1 x hx2
    · exact Or.inr hx2
  · intro p hp hpa
    exact hp2 p hp (hp1 p hp hpa)
  · exact fun h => hd2 (hd1 h)

theorem append_singleton_split {α : Type} {l1 l2 acc : List α} {n x : α}
    (h : l1 ++ n :: l2 = acc ++ [x]) :
    (l2 = [] ∧ n = x ∧ l1 = acc) ∨
      (∃ l2', l2 = l2' ++ [x] ∧ acc = l1 ++ n :: l2') := by
  rcases List.eq_nil_or_concat l2 with rfl | ⟨l2', a, rfl⟩
  · left
    have h2 := List.append_inj' (by simpa using h) (by rfl : ([n] : List α).length = [x].length)
    obtain ⟨hl, hs⟩ := h2
    cases hs
    exact ⟨rfl, rfl, hl⟩
  · right
    rw [List.concat_eq_append] at h
    rw [show l1 ++ n :: (l2' ++ [a]) = (l1 ++ n :: l2') ++ [a] by simp] at h
    have h2 := List.append_inj' h (by rfl : ([a] : List α).length = [x].length)
    obtain ⟨hl, hs⟩ := h2
    cases hs
    exact ⟨l2', by rw [List.concat_eq_append], hl.symm⟩

/-- The dependency fold inside `visit`, assuming the specification for
recursive calls at the smaller fuel. -/
theorem foldVisit_out (k : Kernel) (fuel : Nat) (path' : List String)
    (IH : ∀ (name : String) (acc acc' : List String),
      k.visit fuel name path' acc = Except.ok acc' →
      k.VisitOut path' acc acc' ∧ (alHas k.plugins name = true → name ∈ acc')) :
    ∀ (deps acc0 a : List String),
      deps.foldlM (fun a d => k.visit fuel d path' a) acc0 = Except.ok a →
      k.VisitOut path' acc0 a ∧ (∀ d ∈ deps, alHas k.plugins d = true → d ∈ a) := by
  intro deps
  induction deps with
  | nil =>
    intro acc0 a h
    have h2 : acc0 = a := by injection h
    subst h2
    exact ⟨VisitOut_refl k path' acc0, by simp⟩
  | cons d rest ih =>
    intro acc0 a h
    rw [List.foldlM_cons] at h
    cases hv : k.visit fuel d path' acc0 with
    | error e =>
      rw [hv] at h
      have h2 : (Except.error e : Except KError (List String)) = Except.ok a := h
      cases h2
    | ok a1 =>
      rw [hv] at h
      have h2 : rest.foldlM (fun a d => k.visit fuel d path' a) a1 = Except.ok a := h
      obtain ⟨vo1, hd1⟩ := IH d acc0 a1 hv
      obtain ⟨vo2, hrest⟩ := ih a1 a h2
      refine ⟨VisitOut_trans vo1 vo2, ?_⟩
      intro d' hd' hhas
      rcases List.mem_cons.1 hd' with rfl | hd'2
      · obtain ⟨t, ht⟩ := vo2.1
        rw [ht]
        exact List.mem_append_left t (hd1 hhas)
      · exact hrest d' hd'2 hhas

/-- Main specification of `visit`: on success it extends the accumulator
with fresh registered names, never adds a name already on the DFS path,
preserves dependency ordering, and ensures the visited name itself ends up
in the result. -/
theorem visit_out (k : Kernel) :
    ∀ (fuel : Nat) (name : String) (path acc acc' : List String),
      k.visit fuel name path acc = Except.ok acc' →
      k.VisitOut path acc acc' ∧ (alHas k.plugins name = true → name ∈ acc') := by
  intro fuel
  induction fuel with
  | zero =>
    intro name path acc acc' h
    simp [Kernel.visit] at h
  | succ fuel ih =>
    intro name path acc acc' h
    rw [Kernel.visit] at h
    by_cases hacc : name ∈ acc
    · rw [if_pos hacc] at h
      simp only [Except.ok.injEq] at h
      subst h
      exact ⟨VisitOut_refl k path acc, fun _ => hacc⟩
    · rw [if_neg hacc] at h
      by_cases hpath : name ∈ path
      · rw [if_pos hpath] at h
        cases h
      · rw [if_neg hpath] at h
        cases hget : alGet k.plugins name with
        | none =>
          have h2 : acc = acc' := by
            rw [hget] at h
            injection h
          subst h2
          refine ⟨VisitOut_refl k path acc, ?_⟩
          intro hhas
          unfold alHas at hhas
          rw [hget] at hhas
          cases hhas
        | some entry =>
          rw [hget] at h
          have h2 : (match entry.plugin.dependencies.foldlM
              (fun a d => k.visit fuel d (path ++ [name]) a) acc with
            | Except.error e => Except.error e
            | Except.ok a => Except.ok (a ++ [name])) = Except.ok acc' := h
          cases hfold : entry.plugin.dependencies.foldlM
              (fun a d => k.visit fuel d (path ++ [name]) a) acc with
          | error e =>
            rw [hfold] at h2
            have h3 : (Except.error e : Except KError (List String)) = Except.ok acc' := h2
            cases h3
          | ok a =>
            rw [hfold] at h2
            have h3 : Except.ok (a ++ [name]) = Except.ok acc' := h2
            injection h3 with h3
            subst h3
            obtain ⟨vo, hdeps⟩ := foldVisit_out k fuel (path ++ [name])
              (fun nm acc1 acc2 hh => ih nm (path ++ [name]) acc1 acc2 hh)
              entry.plugin.dependencies acc a hfold
            have hnamea : name ∉ a :=
              vo.2.2.2.1 name (by simp) hacc
            have hmem : alHas k.plugins name = true := by
              unfold alHas
              rw [hget]
              rfl
            refine ⟨⟨?_, ?_, ?_, ?_, ?_⟩, fun _ => by simp⟩
            · obtain ⟨t, ht⟩ := vo.1
              exact ⟨t ++ [name], by rw [ht, List.append_assoc]⟩
            · intro hnodup
              have ha := vo.2.1 hnodup
              rw [List.nodup_append]
              exact ⟨ha, List.nodup_singleton name, by simpa using hnamea⟩
            · intro x hx
              rcases List.mem_append.1 hx with hx2 | hx2
              · rcases vo.2.2.1 x hx2 with h3 | h3
                · exact Or.inl h3
                · exact Or.inr h3
              · simp at hx2
                subst hx2
                exact Or.inr hmem
            · intro p hp hpacc
              have hpa : p ∉ a := vo.2.2.2.1 p (by simp [hp]) hpacc
              intro hcon
              rcases List.mem_append.1 hcon with h3 | h3
              · exact hpa h3
              · simp at h3
                subst h3
                exact hpath hp
            · intro hdp
              have hdpa := vo.2.2.2.2 hdp
              intro l1 n l2 hsplit entry' hget' d hd hhas
              rcases append_singleton_split hsplit.symm with ⟨_, rfl, rfl⟩ | ⟨l2', _, hacc2⟩
              · rw [hget'] at hget
                simp only [Option.some.injEq] at hget
                subst hget
                exact hdeps d hd hhas
              · exact hdpa l1 n l2' hacc2 entry' hget' d hd hhas

/-- Specification of `topologicalSort`: the result is duplicate-free,
contains exactly the registered names (every registered plugin occurs),
and lists every registered dependency before its dependent. -/
theorem topologicalSort_out {k : Kernel} {res : List String}
    (h : k.topologicalSort = Except.ok res) :
    res.Nodup ∧ (∀ x ∈ res, alHas k.plugins x = true) ∧
      (∀ pr ∈ k.plugins, pr.1 ∈ res) ∧ k.depsPrecede res := by
  have haux : ∀ (prs : List (String × PluginEntry)) (acc0 res : List String),
      (∀ pr ∈ prs, alHas k.plugins pr.1 = true) →
      prs.foldlM (fun acc pr => k.visit (k.plugins.length + 1) pr.1 [] acc) acc0 =
        Except.ok res →
      k.VisitOut [] acc0 res ∧ ∀ pr ∈ prs, pr.1 ∈ res := by
    intro prs
    induction prs with
    | nil =>
      intro acc0 res _ hfold
      have h2 : acc0 = res := by injection hfold
      subst h2
      exact ⟨VisitOut_refl k [] acc0, by simp⟩
    | cons pr rest ih =>
      intro acc0 res hsub hfold
      rw [List.foldlM_cons] at hfold
      cases hv : k.visit (k.plugins.length + 1) pr.1 [] acc0 with
      | error e =>
        rw [hv] at hfold
        have h2 : (Except.error e : Except KError (List String)) = Except.ok res := hfold
        cases h2
      | ok a1 =>
        rw [hv] at hfold
        have h2 : rest.foldlM (fun acc pr => k.visit (k.plugins.length + 1) pr.1 [] acc) a1 =
          Except.ok res := hfold
        obtain ⟨vo1, hmem1⟩ := visit_out k (k.plugins.length + 1) pr.1 [] acc0 a1 hv
        obtain ⟨vo2, hmem2⟩ := ih a1 res (fun q hq => hsub q (List.mem_cons_of_mem pr hq)) h2
        refine ⟨VisitOut_trans vo1 vo2, ?_⟩
        intro pr' hpr'
        rcases List.mem_cons.1 hpr' with rfl | hpr'2
        · obtain ⟨t, ht⟩ := vo2.1
          rw [ht]
          exact List.mem_append_left t (hmem1 (hsub pr' hpr'))
        · exact hmem2 pr' hpr'2
  obtain ⟨vo, hcomplete⟩ := haux k.plugins [] res (fun q hq => alHas_of_mem hq) h
  have hdp : k.depsPrecede res := by
    apply vo.2.2.2.2
    intro l1 n l2 hsplit
    cases l1 <;> cases hsplit
  refine ⟨vo.2.1 List.nodup_nil, ?_, hcomplete, hdp⟩
  intro x hx
  rcases vo.2.2.1 x hx with h2 | h2
  · cases h2
  · exact h2

/-- C2: with A (no deps), B (deps=[A]), C (deps=[B]) in the registry in any
order, `init()` invokes the `onInit` hooks exactly in the order A, B, C;
and in general a successful topological sort places every registered
dependency of a plugin strictly before the plugin itself in the resulting
initialization sequence. -/
theorem init_order_and_deps_first :
    (∀ l : List (String × PluginEntry),
      l.Perm [regEntry chainA, regEntry chainB, regEntry chainC] →
      (Kernel.init ⟨l, EventBus.empty, KernelState.idle⟩).2.1.filter TraceEv.isOnInit =
        [TraceEv.onInitCall "A", TraceEv.onInitCall "B", TraceEv.onInitCall "C"]) ∧
    (∀ (k : Kernel) (res : List String), k.topologicalSort = Except.ok res →
      k.depsPrecede res) := by
  constructor
  · intro l hperm
    have hmem : l ∈ ([regEntry chainA, regEntry chainB, regEntry chainC] :
        List (String × PluginEntry)).permutations' := List.mem_permutations'.2 hperm
    have hperms : ([regEntry chainA, regEntry chainB, regEntry chainC] :
        List (String × PluginEntry)).permutations' =
        [[regEntry chainA, regEntry chainB, regEntry chainC],
         [regEntry chainB, regEntry chainA, regEntry chainC],
         [regEntry chainB, regEntry chainC, regEntry chainA],
         [regEntry chainA, regEntry chainC, regEntry chainB],
         [regEntry chainC, regEntry chainA, regEntry chainB],
         [regEntry chainC, regEntry chainB, regEntry chainA]] := by decide
    rw [hperms] at hmem
    simp only [List.mem_cons, List.not_mem_nil, or_false] at hmem
    rcases hmem with rfl | rfl | rfl | rfl | rfl | rfl <;> decide
  · intro k res h
    exact (topologicalSort_out h).2.2.2

/-- Witness for `init_order_and_deps_first`: the reverse registration order
C, B, A still initializes A, B, C; and in the sorted chain ["A", "B", "C"],
B's registered dependency "A" indeed occurs in the prefix before "B". -/
theorem init_order_and_deps_first_witness :
    (([regEntry chainC, regEntry chainB, regEntry chainA] :
        List (String × PluginEntry)).Perm
        [regEntry chainA, regEntry chainB, regEntry chainC] ∧
      (Kernel.init ⟨[regEntry chainC, regEntry chainB, regEntry chainA], EventBus.empty,
          KernelState.idle⟩).2.1.filter TraceEv.isOnInit =
        [TraceEv.onInitCall "A", TraceEv.onInitCall "B", TraceEv.onInitCall "C"]) ∧
    (kernelChain.topologicalSort = Except.ok ["A", "B", "C"] ∧ "A" ∈ ["A"]) := by
  refine ⟨⟨by decide, init_order_and_deps_first.1 _ (by decide)⟩, rfl, ?_⟩
  exact init_order_and_deps_first.2 kernelChain ["A", "B", "C"] rfl
    ["A"] "B" ["C"] rfl ⟨chainB, PluginState.registered⟩ (by decide) "A" (by decide) (by decide)

/-- Every `init()` caller that finds an initialization already in flight
joins it instead of starting a new one. -/
theorem initFanOut_joined (m : Nat) :
    ∀ k : Kernel, k.state = KernelState.initializing →
      (k.initFanOut m).2 = List.replicate m InitCallKind.joined := by
  induction m with
  | zero => intro k _; rfl
  | succ m ih =>
    intro k h
    have hs : k.initSync = (k, InitCallKind.joined) := by
      unfold Kernel.initSync
      rw [h]
    unfold Kernel.initFanOut
    rw [hs]
    simp only [List.replicate]
    rw [← ih k h]

/-- Out of any positive number of concurrent `init()` callers on an idle
kernel, exactly the first starts the underlying initialization and every
other caller joins it. -/
theorem initFanOut_single_start (k : Kernel) (h : k.state = KernelState.idle) (n : Nat) :
    (k.initFanOut (n + 1)).2 =
      InitCallKind.started :: List.replicate n InitCallKind.joined := by
  have hs : k.initSync =
      ({ k with state := KernelState.initializing }, InitCallKind.started) := by
    unfold Kernel.initSync
    rw [h]
  unfold Kernel.initFanOut
  rw [hs]
  simp only
  rw [← initFanOut_joined n { k with state := KernelState.initializing } rfl]

/-- `initPlugin` on a `registered` entry with no `onInit` hook. -/
theorem initPlugin_noHook_eq {k : Kernel} {n : String} {e : PluginEntry}
    (hget : alGet k.plugins n = some e) (hstate : e.state = PluginState.registered)
    (h1 : e.plugin.onInit = none) :
    k.initPlugin n =
      ({ k with plugins := (alSet (alSet k.plugins n ⟨e.plugin, PluginState.initializing⟩)
          n ⟨e.plugin, PluginState.active⟩) },
       k.eventBus.emit "plugin:initializing" ++ k.eventBus.emit "plugin:initialized",
       none) := by
  have hset1 : k.setPluginState n PluginState.initializing =
      { k with plugins := alSet k.plugins n ⟨e.plugin, PluginState.initializing⟩ } := by
    unfold Kernel.setPluginState
    rw [hget]
  have hset2 : Kernel.setPluginState
      { k with plugins := alSet k.plugins n ⟨e.plugin, PluginState.initializing⟩ }
      n PluginState.active =
      { k with plugins := (alSet (alSet k.plugins n ⟨e.plugin, PluginState.initializing⟩)
        n ⟨e.plugin, PluginState.active⟩) } := by
    unfold Kernel.setPluginState
    have hp : ({ k with
        plugins := alSet k.plugins n ⟨e.plugin, PluginState.initializing⟩ } : Kernel).plugins =
        alSet k.plugins n ⟨e.plugin, PluginState.initializing⟩ := rfl
    rw [hp, alGet_alSet_self]
  unfold Kernel.initPlugin
  rw [hget]
  dsimp only
  rw [if_neg (by simp [hstate]), h1]
  dsimp only
  rw [hset1, hset2]

/-- `initPlugin` on a `registered` entry whose `onInit` hook resolves. -/
theorem initPlugin_hook_ok_eq {k : Kernel} {n : String} {e : PluginEntry}
    (hget : alGet k.plugins n = some e) (hstate : e.state = PluginState.registered)
    (h1 : e.plugin.onInit = some none) :
    k.initPlugin n =
      ({ k with plugins := (alSet (alSet k.plugins n ⟨e.plugin, PluginState.initializing⟩)
          n ⟨e.plugin, PluginState.active⟩) },
       k.eventBus.emit "plugin:initializing" ++ [TraceEv.onInitCall n] ++
         k.eventBus.emit "plugin:initialized",
       none) := by
  have hset1 : k.setPluginState n PluginState.initializing =
      { k with plugins := alSet k.plugins n ⟨e.plugin, PluginState.initializing⟩ } := by
    unfold Kernel.setPluginState
    rw [hget]
  have hset2 : Kernel.setPluginState
      { k with plugins := alSet k.plugins n ⟨e.plugin, PluginState.initializing⟩ }
      n PluginState.active =
      { k with plugins := (alSet (alSet k.plugins n ⟨e.plugin, PluginState.initializing⟩)
        n ⟨e.plugin, PluginState.active⟩) } := by
    unfold Kernel.setPluginState
    have hp : ({ k with
        plugins := alSet k.plugins n ⟨e.plugin, PluginState.initializing⟩ } : Kernel).plugins =
        alSet k.plugins n ⟨e.plugin, PluginState.initializing⟩ := rfl
    rw [hp, alGet_alSet_self]
  unfold Kernel.initPlugin
  rw [hget]
  dsimp only
  rw [if_neg (by simp [hstate]), h1]
  dsimp only
  rw [hset1, hset2]

/-- Trace accounting for the initialization loop when every remaining
plugin is `registered` with a succeeding (or absent) `onInit` hook: the
loop succeeds and each plugin's `onInit` is invoked exactly once (when
present) and never twice. -/
theorem doInitLoop_counts :
    ∀ (names : List String) (k : Kernel) (stack : List String),
      names.Nodup →
      (∀ n ∈ names, ∃ e, alGet k.plugins n = some e ∧ e.state = PluginState.registered ∧
        (e.plugin.onInit = none ∨ e.plugin.onInit = some none)) →
      (k.doInitLoop names stack).2.2 = none ∧
      (∀ m, m ∉ names →
        (k.doInitLoop names stack).2.1.count (TraceEv.onInitCall m) = 0) ∧
      (∀ m e, m ∈ names → alGet k.plugins m = some e →
        (k.doInitLoop names stack).2.1.count (TraceEv.onInitCall m) =
          if e.plugin.onInit = some none then 1 else 0) := by
  intro names
  induction names with
  | nil =>
    intro k stack _ _
    refine ⟨rfl, ?_, ?_⟩
    · intro m _
      exact List.count_eq_zero.2 onInitCall_not_mem_emit
    · intro m e hm
      cases hm
  | cons n rest ih =>
    intro k stack hnodup hinv
    obtain ⟨en, hget, hstate, hinit⟩ := hinv n (by simp)
    rw [List.nodup_cons] at hnodup
    have hbig : ∀ (K2 : Kernel) (T1 : List TraceEv),
        (∀ m, T1.count (TraceEv.onInitCall m) =
          if m = n ∧ en.plugin.onInit = some none then 1 else 0) →
        k.initPlugin n = (K2, T1, none) →
        (∀ m, m ≠ n → alGet K2.plugins m = alGet k.plugins m) →
        (k.doInitLoop (n :: rest) stack).2.2 = none ∧
        (∀ m, m ∉ n :: rest →
          (k.doInitLoop (n :: rest) stack).2.1.count (TraceEv.onInitCall m) = 0) ∧
        (∀ m e, m ∈ n :: rest → alGet k.plugins m = some e →
          (k.doInitLoop (n :: rest) stack).2.1.count (TraceEv.onInitCall m) =
            if e.plugin.onInit = some none then 1 else 0) := by
      intro K2 T1 hT1 hip hKm
      rcases hrest : K2.doInitLoop rest (stack ++ [n]) with ⟨k2, t2, r⟩
      have hloop : k.doInitLoop (n :: rest) stack = (k2, T1 ++ t2, r) := by
        unfold Kernel.doInitLoop
        rw [hip]
        dsimp only
        rw [hrest]
      have hside : ∀ m ∈ rest, ∃ e, alGet K2.plugins m = some e ∧
          e.state = PluginState.registered ∧
          (e.plugin.onInit = none ∨ e.plugin.onInit = some none) := by
        intro m hm
        have hmn : m ≠ n := fun hcon => hnodup.1 (hcon ▸ hm)
        obtain ⟨e', hg', hs', hi'⟩ := hinv m (by simp [hm])
        exact ⟨e', by rw [hKm m hmn]; exact hg', hs', hi'⟩
      obtain ⟨ihe, ihz, ihc⟩ := ih K2 (stack ++ [n]) hnodup.2 hside
      rw [hrest] at ihe ihz ihc
      refine ⟨by rw [hloop]; exact ihe, ?_, ?_⟩
      · intro m hm
        rw [hloop]
        simp only [List.count_append]
        rw [hT1 m, ihz m (fun hcon => hm (by simp [hcon]))]
        simp only [List.mem_cons, not_or] at hm
        simp [hm.1]
      · intro m e hm hgetm
        rcases List.mem_cons.1 hm with rfl | hm2
        · rw [hgetm] at hget
          injection hget with hget
          subst hget
          rw [hloop]
          simp only [List.count_append]
          rw [hT1 m, ihz m hnodup.1]
          simp
        · have hmn : m ≠ n := fun hcon => hnodup.1 (hcon ▸ hm2)
          rw [hloop]
          simp only [List.count_append]
          rw [hT1 m, ihc m e hm2 (by rw [hKm m hmn]; exact hgetm)]
          simp [hmn]
    have hKplug : ∀ m, m ≠ n →
        alGet (alSet (alSet k.plugins n ⟨en.plugin, PluginState.initializing⟩)
          n ⟨en.plugin, PluginState.active⟩) m = alGet k.plugins m := by
      intro m hm
      rw [alGet_alSet_ne hm, alGet_alSet_ne hm]
    rcases hinit with h1 | h1
    · refine hbig _ (k.eventBus.emit "plugin:initializing" ++
        k.eventBus.emit "plugin:initialized") ?_ (initPlugin_noHook_eq hget hstate h1)
        hKplug
      intro m
      simp only [List.count_append]
      rw [List.count_eq_zero.2 onInitCall_not_mem_emit,
        List.count_eq_zero.2 onInitCall_not_mem_emit]
      simp [h1]
    · refine hbig _ (k.eventBus.emit "plugin:initializing" ++ [TraceEv.onInitCall n] ++
        k.eventBus.emit "plugin:initialized") ?_ (initPlugin_hook_ok_eq hget hstate h1)
        hKplug
      intro m
      simp only [List.count_append]
      rw [List.count_eq_zero.2 onInitCall_not_mem_emit,
        List.count_eq_zero.2 onInitCall_not_mem_emit]
      by_cases hmn : m = n
      · subst hmn
        simp [h1]
      · simp [List.count_singleton', hmn, Ne.symm hmn]

/-- C3: concurrent `init()` calls share one underlying initialization.
Any positive fan-out of callers on an idle kernel makes exactly the first
caller start `doInit` while every later caller joins the same in-flight
operation; the starting caller's `init()` is exactly one `doInit` run; and
in that single run each registered plugin's `onInit` hook (when present
and succeeding, with every plugin still `registered`) is invoked exactly
once in total, never twice. -/
theorem init_single_flight :
    (∀ (k : Kernel) (n : Nat), k.state = KernelState.idle →
      (k.initFanOut (n + 1)).2 =
        InitCallKind.started :: List.replicate n InitCallKind.joined) ∧
    (∀ k : Kernel, k.state = KernelState.idle →
      k.init = Kernel.doInit { k with state := KernelState.initializing }) ∧
    (∀ (k : Kernel) (res : List String),
      (k.plugins.map Prod.fst).Nodup →
      k.topologicalSort = Except.ok res →
      (∀ pr ∈ k.plugins, pr.2.state = PluginState.registered ∧
        (pr.2.plugin.onInit = none ∨ pr.2.plugin.onInit = some none)) →
      ∀ (m : String) (e : PluginEntry), alGet k.plugins m = some e →
        e.plugin.onInit = some none →
        (k.doInit).2.1.count (TraceEv.onInitCall m) = 1) := by
  refine ⟨fun k n h => initFanOut_single_start k h n, ?_, ?_⟩
  · intro k h
    unfold Kernel.init
    rw [h]
  · intro k res hnk hsort hall m e hgetm hhook
    have hout := topologicalSort_out hsort
    have hdo : k.doInit = k.doInitLoop res [] := by
      unfold Kernel.doInit
      rw [hsort]
    rw [hdo]
    have hinv : ∀ nm ∈ res, ∃ e', alGet k.plugins nm = some e' ∧
        e'.state = PluginState.registered ∧
        (e'.plugin.onInit = none ∨ e'.plugin.onInit = some none) := by
      intro nm hnm
      have hhas := hout.2.1 nm hnm
      unfold alHas at hhas
      obtain ⟨e', hg⟩ := Option.isSome_iff_exists.1 hhas
      have hmem := alGet_mem hg
      exact ⟨e', hg, (hall _ hmem).1, (hall _ hmem).2⟩
    obtain ⟨_, _, hc⟩ := doInitLoop_counts res k [] hout.1 hinv
    rw [hc m e (hout.2.2.1 (m, e) (alGet_mem hgetm)) hgetm]
    simp [hhook]

/-- Witness for `init_single_flight` on the chain kernel with three
concurrent callers. -/
theorem init_single_flight_witness :
    (kernelChain.state = KernelState.idle ∧
      (kernelChain.initFanOut 3).2 =
        [InitCallKind.started, InitCallKind.joined, InitCallKind.joined]) ∧
    (kernelChain.doInit).2.1.count (TraceEv.onInitCall "B") = 1 := by
  refine ⟨⟨rfl, ?_⟩, ?_⟩
  · have h := init_single_flight.1 kernelChain 2 rfl
    simpa using h
  · exact init_single_flight.2.2 kernelChain ["A", "B", "C"] (by decide) rfl
      (by decide) "B" ⟨chainB, PluginState.registered⟩ (by decide) rfl

/-- Erasing one element of a list preserves the relative order of the
remaining elements (stated via `indexOf`). -/
theorem indexOf_erase_lt {d x n : String} :
    ∀ {l : List String}, d ≠ n → x ≠ n → d ∈ l → x ∈ l →
      l.indexOf d < l.indexOf x →
      (l.erase n).indexOf d < (l.erase n).indexOf x := by
  intro l
  induction l with
  | nil => intro _ _ hdm _ _; cases hdm
  | cons y rest ih =>
    intro hd hx hdm hxm hlt
    by_cases hy : y = n
    · subst hy
      rw [List.erase_cons_head]
      rw [List.indexOf_cons_ne _ (Ne.symm hd), List.indexOf_cons_ne _ (Ne.symm hx)] at hlt
      exact Nat.lt_of_succ_lt_succ hlt
    · rw [List.erase_cons_tail (by simp [hy])]
      by_cases hdy : d = y
      · subst hdy
        rw [List.indexOf_cons_self]
        have hxd : x ≠ d := by
          intro hcon
          subst hcon
          exact absurd hlt (lt_irrefl _)
        rw [List.indexOf_cons_ne _ (Ne.symm hxd)]
        exact Nat.succ_pos _
      · have hxy : x ≠ y := by
          intro hcon
          subst hcon
          rw [List.indexOf_cons_self] at hlt
          exact Nat.not_lt_zero _ hlt
        rw [List.indexOf_cons_ne _ (Ne.symm hdy), List.indexOf_cons_ne _ (Ne.symm hxy)] at hlt
        rw [List.indexOf_cons_ne _ (Ne.symm hdy), List.indexOf_cons_ne _ (Ne.symm hxy)]
        have hdr : d ∈ rest := (List.mem_cons.1 hdm).resolve_left hdy
        have hxr : x ∈ rest := (List.mem_cons.1 hxm).resolve_left hxy
        exact Nat.succ_lt_succ (ih hd hx hdr hxr (Nat.lt_of_succ_lt_succ hlt))

/-- The registry invariant only mentions the plugin map. -/
theorem registryInv_of_plugins_eq {k1 k2 : Kernel} (h : k1.plugins = k2.plugins)
    (hinv : k1.RegistryInv) : k2.RegistryInv := by
  unfold Kernel.RegistryInv Kernel.keys at *
  rw [← h]
  exact hinv

/-- Changing one entry's lifecycle state keeps the registry invariant. -/
theorem setPluginState_registryInv {k : Kernel} {n : String} {s : PluginState}
    (hinv : k.RegistryInv) : (k.setPluginState n s).RegistryInv := by
  cases hget : alGet k.plugins n with
  | none =>
    have hs : k.setPluginState n s = k := by
      unfold Kernel.setPluginState
      rw [hget]
    rw [hs]
    exact hinv
  | some e =>
    have hs : k.setPluginState n s = { k with plugins := alSet k.plugins n ⟨e.plugin, s⟩ } := by
      unfold Kernel.setPluginState
      rw [hget]
    rw [hs]
    have hhas : alHas k.plugins n = true := by
      unfold alHas
      rw [hget]
      rfl
    have hkeys : (Kernel.keys { k with plugins := alSet k.plugins n ⟨e.plugin, s⟩ }) = k.keys := by
      unfold Kernel.keys
      exact keys_alSet_of_has hhas
    constructor
    · rw [hkeys]
      exact hinv.1
    · intro pr hpr d hd
      rw [hkeys]
      rcases mem_alSet hpr with hpr2 | hpr2
      · exact hinv.2 pr hpr2 d hd
      · subst hpr2
        exact hinv.2 (n, e) (alGet_mem hget) d hd

/-- `initPlugin` keeps the registry invariant. -/
theorem initPlugin_registryInv {k : Kernel} {n : String}
    (hinv : k.RegistryInv) : ((k.initPlugin n).1).RegistryInv := by
  unfold Kernel.initPlugin
  cases hget : alGet k.plugins n with
  | none => exact hinv
  | some e =>
    dsimp only
    by_cases hs : e.state ≠ PluginState.registered
    · rw [if_pos hs]
      exact hinv
    · rw [if_neg hs]
      cases e.plugin.onInit with
      | none => exact setPluginState_registryInv (setPluginState_registryInv hinv)
      | some o =>
        cases o with
        | none => exact setPluginState_registryInv (setPluginState_registryInv hinv)
        | some err => exact setPluginState_registryInv hinv

/-- `destroyPlugin` keeps the registry invariant. -/
theorem destroyPlugin_registryInv {k : Kernel} {n : String}
    (hinv : k.RegistryInv) : ((k.destroyPlugin n).1).RegistryInv := by
  unfold Kernel.destroyPlugin
  cases hget : alGet k.plugins n with
  | none => exact hinv
  | some e =>
    dsimp only
    by_cases hs : e.state = PluginState.destroyed
    · rw [if_pos hs]
      exact hinv
    · rw [if_neg hs]
      have hinv1 : Kernel.RegistryInv { k with eventBus := k.eventBus.removeScope n } :=
        registryInv_of_plugins_eq rfl hinv
      cases e.plugin.onDestroy with
      | none => exact setPluginState_registryInv hinv1
      | some o =>
        cases o with
        | none => exact setPluginState_registryInv hinv1
        | some err => exact hinv1

/-- Under the registry invariant, `visit` always succeeds: recursion only
descends to strictly earlier-registered names, so the cycle check can
never fire and the fuel bound is never reached. -/
theorem visit_ok_of_inv {k : Kernel} (hinv : k.RegistryInv) :
    ∀ (fuel : Nat) (name : String) (path acc : List String),
      k.keys.indexOf name < fuel →
      (∀ p ∈ path, p ∈ k.keys ∧ (name ∈ k.keys → k.keys.indexOf name < k.keys.indexOf p)) →
      ∃ acc', k.visit fuel name path acc = Except.ok acc' := by
  intro fuel
  induction fuel with
  | zero =>
    intro name path acc hf _
    exact absurd hf (Nat.not_lt_zero _)
  | succ fuel ih =>
    intro name path acc hf hpath
    rw [Kernel.visit]
    by_cases hacc : name ∈ acc
    · exact ⟨acc, by rw [if_pos hacc]⟩
    · rw [if_neg hacc]
      have hnp : name ∉ path := by
        intro hcon
        obtain ⟨hmem, hidx⟩ := hpath name hcon
        exact absurd (hidx hmem) (lt_irrefl _)
      rw [if_neg hnp]
      cases hget : alGet k.plugins name with
      | none => exact ⟨acc, rfl⟩
      | some entry =>
        have hnamek : name ∈ k.keys := by
          rw [show k.keys = k.plugins.map Prod.fst from rfl, ← alHas_true_iff]
          unfold alHas
          rw [hget]
          rfl
        have hdeps := hinv.2 (name, entry) (alGet_mem hget)
        have hfold : ∀ (deps : List String),
            (∀ d ∈ deps, d ∈ k.keys ∧ k.keys.indexOf d < k.keys.indexOf name) →
            ∀ acc0, ∃ a, deps.foldlM (fun a d => k.visit fuel d (path ++ [name]) a) acc0 =
              Except.ok a := by
          intro deps
          induction deps with
          | nil =>
            intro _ acc0
            exact ⟨acc0, rfl⟩
          | cons d rest ihd =>
            intro hds acc0
            obtain ⟨hdk, hdi⟩ := hds d (by simp)
            have hpathd : ∀ p ∈ path ++ [name], p ∈ k.keys ∧
                (d ∈ k.keys → k.keys.indexOf d < k.keys.indexOf p) := by
              intro p hp
              rcases List.mem_append.1 hp with hp2 | hp2
              · obtain ⟨hpk, hpi⟩ := hpath p hp2
                exact ⟨hpk, fun _ => lt_trans hdi (hpi hnamek)⟩
              · simp at hp2
                subst hp2
                exact ⟨hnamek, fun _ => hdi⟩
            obtain ⟨a1, ha1⟩ := ih d (path ++ [name]) acc0
              (lt_of_lt_of_le hdi (Nat.lt_succ_iff.1 hf)) hpathd
            obtain ⟨a2, ha2⟩ := ihd (fun q hq => hds q (by simp [hq])) a1
            refine ⟨a2, ?_⟩
            rw [List.foldlM_cons, ha1]
            exact ha2
        obtain ⟨a, ha⟩ := hfold entry.plugin.dependencies
          (fun d hd => hdeps d hd) acc
        refine ⟨a ++ [name], ?_⟩
        dsimp only
        rw [ha]

/-- Under the registry invariant, `topologicalSort` always succeeds:
no `CircularDependencyError` (and no fuel exhaustion) is possible. -/
theorem topologicalSort_ok_of_inv {k : Kernel} (hinv : k.RegistryInv) :
    ∃ res, k.topologicalSort = Except.ok res := by
  unfold Kernel.topologicalSort
  have haux : ∀ (prs : List (String × PluginEntry)) (acc0 : List String),
      ∃ res, prs.foldlM (fun acc pr => k.visit (k.plugins.length + 1) pr.1 [] acc) acc0 =
        Except.ok res := by
    intro prs
    induction prs with
    | nil =>
      intro acc0
      exact ⟨acc0, rfl⟩
    | cons pr rest ihp =>
      intro acc0
      have hflim : k.keys.indexOf pr.1 < k.plugins.length + 1 := by
        have h1 : k.keys.indexOf pr.1 ≤ k.keys.length := List.indexOf_le_length
        have h2 : k.keys.length = k.plugins.length := by
          rw [show k.keys = k.plugins.map Prod.fst from rfl, List.length_map]
        omega
      obtain ⟨a1, ha1⟩ := visit_ok_of_inv hinv (k.plugins.length + 1) pr.1 [] acc0
        hflim (by simp)
      obtain ⟨res, hres⟩ := ihp a1
      refine ⟨res, ?_⟩
      rw [List.foldlM_cons, ha1]
      exact hres
  exact haux k.plugins []

/-- Deleting a plugin no other plugin depends on keeps the registry
invariant. -/
theorem delete_registryInv {K : Kernel} {n : String} (hinv : K.RegistryInv)
    (hnodep : ∀ pr ∈ K.plugins, pr.1 ≠ n → n ∉ pr.2.plugin.dependencies) :
    Kernel.RegistryInv { K with plugins := alDelete K.plugins n } := by
  have hkeys : (Kernel.keys { K with plugins := alDelete K.plugins n }) =
      K.keys.erase n := by
    rw [show (Kernel.keys { K with plugins := alDelete K.plugins n }) =
      (alDelete K.plugins n).map Prod.fst from rfl]
    rw [keys_alDelete]
    rfl
  constructor
  · rw [hkeys]
    exact hinv.1.erase n
  · intro pr hpr d hd
    rw [hkeys]
    have hprK : pr ∈ K.plugins := (alDelete_sublist K.plugins n).subset hpr
    have hprne : pr.1 ≠ n := by
      intro hcon
      have hkm : pr.1 ∈ (alDelete K.plugins n).map Prod.fst := List.mem_map_of_mem _ hpr
      rw [keys_alDelete, hcon] at hkm
      exact hinv.1.not_mem_erase hkm
    have hdn : d ≠ n := fun hcon => (hnodep pr hprK hprne) (hcon ▸ hd)
    obtain ⟨hdk, hdi⟩ := hinv.2 pr hprK d hd
    have hprk : pr.1 ∈ K.keys := List.mem_map_of_mem Prod.fst hprK
    exact ⟨(List.mem_erase_of_ne hdn).2 hdk, indexOf_erase_lt hdn hprne hdk hprk hdi⟩

/-- Explicit form of `setPluginState` on a present entry. -/
theorem setPluginState_eq {k : Kernel} {n : String} {e : PluginEntry} {s : PluginState}
    (hget : alGet k.plugins n = some e) :
    k.setPluginState n s = { k with plugins := alSet k.plugins n ⟨e.plugin, s⟩ } := by
  unfold Kernel.setPluginState
  rw [hget]

/-- `register` keeps the registry invariant: on failure the registry is
untouched, on success the new entry is appended with all its dependencies
already at earlier positions. -/
theorem register_registryInv {k : Kernel} {p : Plugin} (hinv : k.RegistryInv) :
    ((k.register p).1).RegistryInv := by
  unfold Kernel.register
  by_cases hdup : alHas k.plugins p.name = true
  · rw [if_pos hdup]
    exact hinv
  · rw [if_neg hdup]
    have hdupf : alHas k.plugins p.name = false := by
      cases h : alHas k.plugins p.name
      · rfl
      · exact absurd h hdup
    cases hfind : p.dependencies.find? (fun d => ! alHas k.plugins d) with
    | some d => exact hinv
    | none =>
      dsimp only
      have hdepsall : ∀ d ∈ p.dependencies, alHas k.plugins d = true := by
        intro d hd
        have hnone := List.find?_eq_none.1 hfind d hd
        cases h : alHas k.plugins d
        · rw [h] at hnone
          simp at hnone
        · rfl
      have hset : alSet k.plugins p.name ⟨p, PluginState.registered⟩ =
          k.plugins ++ [(p.name, ⟨p, PluginState.registered⟩)] :=
        alSet_not_has hdupf
      have hnmem : p.name ∉ k.plugins.map Prod.fst := by
        rw [← alHas_false_iff]
        exact hdupf
      have hnmem2 : p.name ∉ k.keys := hnmem
      have hinv1 : Kernel.RegistryInv
          { k with plugins := alSet k.plugins p.name ⟨p, PluginState.registered⟩ } := by
        have hkeys :
            (Kernel.keys { k with plugins := alSet k.plugins p.name ⟨p, PluginState.registered⟩ })
              = k.keys ++ [p.name] := by
          have hk0 :
              (Kernel.keys { k with plugins := alSet k.plugins p.name ⟨p, PluginState.registered⟩ })
                = (alSet k.plugins p.name ⟨p, PluginState.registered⟩).map Prod.fst := rfl
          rw [hk0, hset, List.map_append]
          rfl
        constructor
        · rw [hkeys, List.nodup_append]
          exact ⟨hinv.1, List.nodup_singleton _, by simpa using hnmem2⟩
        · intro pr hpr d hd
          rw [hkeys]
          have hpr0 :
              pr ∈ ({ k with plugins := alSet k.plugins p.name ⟨p, PluginState.registered⟩ } :
                Kernel).plugins := hpr
          rw [show ({ k with plugins := alSet k.plugins p.name ⟨p, PluginState.registered⟩ } :
            Kernel).plugins = alSet k.plugins p.name ⟨p, PluginState.registered⟩ from rfl,
            hset] at hpr0
          rcases List.mem_append.1 hpr0 with hpr2 | hpr2
          · obtain ⟨hdk, hdi⟩ := hinv.2 pr hpr2 d hd
            have hprk : pr.1 ∈ k.keys := List.mem_map_of_mem Prod.fst hpr2
            refine ⟨List.mem_append_left _ hdk, ?_⟩
            rw [List.indexOf_append_of_mem hdk, List.indexOf_append_of_mem hprk]
            exact hdi
          · simp only [List.mem_singleton] at hpr2
            subst hpr2
            have hdk : d ∈ k.keys := by
              rw [show k.keys = k.plugins.map Prod.fst from rfl, ← alHas_true_iff]
              exact hdepsall d hd
            refine ⟨List.mem_append_left _ hdk, ?_⟩
            rw [List.indexOf_append_of_mem hdk,
              List.indexOf_append_of_not_mem (by exact hnmem2)]
            rw [List.indexOf_cons_self]
            have hlen := List.indexOf_lt_length.2 hdk
            omega
      cases hout : p.installOutcome with
      | some e =>
        dsimp only
        exact registryInv_of_plugins_eq
          (show k.plugins = _ from (alDelete_alSet hdupf).symm) hinv
      | none =>
        dsimp only
        by_cases hst : k.state = KernelState.initialized
        · rw [if_pos (show
            ({ k with plugins := alSet k.plugins p.name ⟨p, PluginState.registered⟩ } :
              Kernel).state = KernelState.initialized from hst)]
          rcases hip : Kernel.initPlugin
            { k with plugins := alSet k.plugins p.name ⟨p, PluginState.registered⟩ } p.name
            with ⟨k2, t2, r⟩
          have hk2 := initPlugin_registryInv (n := p.name) hinv1
          rw [hip] at hk2
          cases r with
          | none => exact hk2
          | some err =>
            dsimp only
            exact setPluginState_registryInv hk2
        · rw [if_neg (show
            ¬ ({ k with plugins := alSet k.plugins p.name ⟨p, PluginState.registered⟩ } :
              Kernel).state = KernelState.initialized from hst)]
          exact hinv1

/-- `unregister` keeps the registry invariant: it only removes an entry
that no remaining plugin depends on. -/
theorem unregister_registryInv {k : Kernel} {n : String} (hinv : k.RegistryInv) :
    ((k.unregister n).1).RegistryInv := by
  unfold Kernel.unregister
  cases hget : alGet k.plugins n with
  | none => exact hinv
  | some entry =>
    dsimp only
    cases hfind : k.plugins.find?
        (fun pr => pr.1 != n && pr.2.plugin.dependencies.contains n) with
    | some pr => exact hinv
    | none =>
      dsimp only
      have hnodep : ∀ pr ∈ k.plugins, pr.1 ≠ n → n ∉ pr.2.plugin.dependencies := by
        intro pr hpr hne hdep
        have hthis := List.find?_eq_none.1 hfind pr hpr
        simp [hne, hdep] at hthis
      rcases hdp : k.destroyPlugin n with ⟨k1, t1, r⟩
      have hk1 := destroyPlugin_registryInv (n := n) hinv
      rw [hdp] at hk1
      have hshape : (k.destroyPlugin n).1.plugins = k.plugins ∨
          (k.destroyPlugin n).1.plugins =
            alSet k.plugins n ⟨entry.plugin, PluginState.destroyed⟩ := by
        unfold Kernel.destroyPlugin
        rw [hget]
        dsimp only
        by_cases hs : entry.state = PluginState.destroyed
        · rw [if_pos hs]
          exact Or.inl rfl
        · rw [if_neg hs]
          cases entry.plugin.onDestroy with
          | none =>
            rw [setPluginState_eq (k := { k with eventBus := k.eventBus.removeScope n }) hget]
            exact Or.inr rfl
          | some o =>
            cases o with
            | none =>
              rw [setPluginState_eq (k := { k with eventBus := k.eventBus.removeScope n }) hget]
              exact Or.inr rfl
            | some err => exact Or.inl rfl
      rw [hdp] at hshape
      have hnodep1 : ∀ pr ∈ k1.plugins, pr.1 ≠ n → n ∉ pr.2.plugin.dependencies := by
        rcases hshape with hp | hp <;> rw [hp]
        · exact hnodep
        · intro pr hpr hne
          rcases mem_alSet hpr with hpr2 | hpr2
          · exact hnodep pr hpr2 hne
          · subst hpr2
            exact absurd rfl hne
      cases r with
      | none =>
        dsimp only
        exact delete_registryInv hk1 hnodep1
      | some e => exact hk1

/-- The initialization loop only ever rejects with a wrapped
`PluginInitializationError`. -/
theorem doInitLoop_error_shape :
    ∀ (names : List String) (k : Kernel) (stack : List String),
      (k.doInitLoop names stack).2.2 = none ∨
      ∃ n e, (k.doInitLoop names stack).2.2 = some (KError.pluginInitialization n e) := by
  intro names
  induction names with
  | nil =>
    intro k stack
    exact Or.inl rfl
  | cons n rest ih =>
    intro k stack
    unfold Kernel.doInitLoop
    rcases hip : k.initPlugin n with ⟨k1, t1, r⟩
    cases r with
    | none =>
      dsimp only
      rcases hrest : k1.doInitLoop rest (stack ++ [n]) with ⟨k2, t2, r2⟩
      have hres := ih k1 (stack ++ [n])
      rw [hrest] at hres
      exact hres
    | some err =>
      dsimp only
      rcases hrb : (k1.setPluginState n PluginState.error).rollback stack.reverse with ⟨k3, t3⟩
      exact Or.inr ⟨n, err, rfl⟩

/-- C4: a registry reachable through the public `register`/`unregister`
operations always satisfies the ordering invariant (keys unique, every
dependency registered strictly earlier), hence its dependency graph is
acyclic: the fresh kernel satisfies it, both operations preserve it, under
it `topologicalSort` always succeeds, and consequently neither `init()`
nor `destroy()` can ever reject with `CircularDependencyError`. -/
theorem registry_never_cyclic :
    Kernel.RegistryInv Kernel.new ∧
    (∀ (k : Kernel) (p : Plugin), k.RegistryInv → ((k.register p).1).RegistryInv) ∧
    (∀ (k : Kernel) (n : String), k.RegistryInv → ((k.unregister n).1).RegistryInv) ∧
    (∀ k : Kernel, k.RegistryInv → ∃ res, k.topologicalSort = Except.ok res) ∧
    (∀ k : Kernel, k.RegistryInv → ∀ cyc : List String,
      (k.init).2.2 ≠ some (KError.circularDependency cyc) ∧
      (k.destroy).2.2 ≠ some (KError.circularDependency cyc)) := by
  refine ⟨⟨List.nodup_nil, by intro pr hpr d hd; cases hpr⟩, fun k p h => register_registryInv h,
    fun k n h => unregister_registryInv h, fun k h => topologicalSort_ok_of_inv h, ?_⟩
  intro k hinv cyc
  constructor
  · unfold Kernel.init
    cases hst : k.state with
    | initialized => simp
    | initializing => simp
    | destroyed => simp
    | idle =>
      have hinv' : Kernel.RegistryInv { k with state := KernelState.initializing } :=
        registryInv_of_plugins_eq rfl hinv
      obtain ⟨res, hres⟩ := topologicalSort_ok_of_inv hinv'
      unfold Kernel.doInit
      rw [hres]
      rcases doInitLoop_error_shape res { k with state := KernelState.initializing } []
        with hsh | ⟨n, e, hsh⟩ <;> rw [hsh] <;> simp
  · unfold Kernel.destroy
    by_cases hst : k.state = KernelState.destroyed
    · rw [if_pos hst]
      simp
    · rw [if_neg hst]
      obtain ⟨res, hres⟩ := topologicalSort_ok_of_inv hinv
      rw [hres]
      dsimp only
      rcases hdl : k.destroyLoop res.reverse with ⟨k1, t1⟩
      simp

/-- Witness for `registry_never_cyclic`: the invariant holds for the chain
registry, registering a fresh dependent plugin "D" preserves it, the sort
succeeds, and `init`/`destroy` do not reject with a circular-dependency
error. -/
theorem registry_never_cyclic_witness :
    kernelChain.RegistryInv ∧
    ((kernelChain.register ⟨"D", "1.0.0", ["C"], none, none, none, false⟩).1).RegistryInv ∧
    (∃ res, kernelChain.topologicalSort = Except.ok res) ∧
    (kernelChain.init).2.2 ≠ some (KError.circularDependency ["A", "B", "C", "A"]) := by
  have hinv : kernelChain.RegistryInv := by
    constructor
    · decide
    · decide
  refine ⟨hinv, registry_never_cyclic.2.1 kernelChain _ hinv,
    registry_never_cyclic.2.2.2.1 kernelChain hinv,
    (registry_never_cyclic.2.2.2.2 kernelChain hinv ["A", "B", "C", "A"]).1⟩
